import Mathlib

/-!
# Verification of the distributed-system visualiser's election core

Shallow embedding of `src/node.py` and `src/cluster.py`: the per-node Raft-style
election state machine, the cluster transport (observer bus, pending message
buffer, partition filter) and the fault-injection operations.

Conventions of the embedding:
* Python `time.time()` timestamps and timeout durations (seconds, floats whose
  values here are exact decimals) are modelled as rationals `ℚ`.
* `random.randint(a, b)` draws are passed in as an explicit `Nat` argument.
* Observer callbacks (`notify_observers`) are modelled by having each operation
  return the list of events it publishes, in publication order.
* Python dict envelopes are modelled by the inductive `Msg`, one constructor per
  dict shape the source constructs (`from`/`to` are named `src`/`dst` because
  `from` is a Lean keyword).
-/

/-- `NodeState` enum of `node.py`. -/
inductive NodeState where
  | follower
  | candidate
  | leader
deriving DecidableEq, Repr

/-- The message dicts built by `node.py`, one constructor per shape.
`heartbeat` is the payload of the `message_sent` observer event published by
`send_heartbeats` (whose dict has `"type": "heartbeat"`), as opposed to the
`append_entries` dict it puts on the node-local `message_queue`. -/
inductive Msg where
  | requestVote (src dst term : Nat)
  | voteResponse (src dst term : Nat) (vote_granted : Bool)
  | appendEntries (src dst term : Nat)
  | heartbeat (src dst term : Nat)
  | appendEntriesResponse (src dst term : Nat) (success : Bool)
deriving DecidableEq, Repr

/-- The `"from"` field of a message dict. -/
def Msg.src : Msg → Nat
  | .requestVote s _ _ => s
  | .voteResponse s _ _ _ => s
  | .appendEntries s _ _ => s
  | .heartbeat s _ _ => s
  | .appendEntriesResponse s _ _ _ => s

/-- The `"to"` field of a message dict. -/
def Msg.dst : Msg → Nat
  | .requestVote _ d _ => d
  | .voteResponse _ d _ _ => d
  | .appendEntries _ d _ => d
  | .heartbeat _ d _ => d
  | .appendEntriesResponse _ d _ _ => d

/-- Events a node publishes through `notify_observers`. -/
inductive Event where
  | state_change (st : NodeState) (term : Nat)
  | message_sent (m : Msg)
  | node_failure (id : Nat)
  | node_restore (id : Nat)
deriving DecidableEq, Repr

/-- The mutable state of `Node` (`node.py`). The `thread` field is not state;
`observers` is modelled by returning event lists. -/
structure Node where
  id : Nat
  nodes_count : Nat
  state : NodeState
  current_term : Nat
  voted_for : Option Nat
  votes_received : Nat
  log : List Unit
  election_timeout : ℚ
  last_heartbeat : ℚ
  message_queue : List Msg
  running : Bool
deriving DecidableEq, Repr

/-- `Node.reset_election_timeout`: `randint(lo, hi) / 1000`, with the drawn
integer `r` passed explicitly. -/
def reset_election_timeout (r : Nat) : ℚ :=
  (r : ℚ) / 1000

/-- `Node.__init__` with the default `election_timeout_range`; `r` is the
timeout draw and `now` the construction timestamp. -/
def initNode (node_id nodes_count : Nat) (r : Nat) (now : ℚ) : Node :=
  { id := node_id
    nodes_count := nodes_count
    state := .follower
    current_term := 0
    voted_for := none
    votes_received := 0
    log := []
    election_timeout := reset_election_timeout r
    last_heartbeat := now
    message_queue := []
    running := true }

/-- The loop `for i in range(nodes_count): if i != self.id` common to
`request_votes` and `send_heartbeats`. -/
def peers (nodes_count node_id : Nat) : List Nat :=
  (List.range nodes_count).filter (fun i => i ≠ node_id)

/-- `Node.send_heartbeats`: append an `append_entries` dict per peer to the
local `message_queue`, and publish a `message_sent` event per peer whose dict
has type `"heartbeat"`. -/
def send_heartbeats (n : Node) : Node × List Event :=
  let ps := peers n.nodes_count n.id
  ({ n with message_queue := n.message_queue ++ ps.map (fun i => Msg.appendEntries n.id i n.current_term) },
   ps.map (fun i => Event.message_sent (Msg.heartbeat n.id i n.current_term)))

/-- `Node.request_votes`. -/
def request_votes (n : Node) : Node × List Event :=
  let ps := peers n.nodes_count n.id
  ({ n with message_queue := n.message_queue ++ ps.map (fun i => Msg.requestVote n.id i n.current_term) },
   ps.map (fun i => Event.message_sent (Msg.requestVote n.id i n.current_term)))

/-- `Node.start_election`; `r` is the fresh timeout draw, `now` the tick time. -/
def start_election (n : Node) (now : ℚ) (r : Nat) : Node × List Event :=
  let n1 := { n with
    state := NodeState.candidate
    current_term := n.current_term + 1
    voted_for := some n.id
    votes_received := 1
    election_timeout := reset_election_timeout r
    last_heartbeat := now }
  let res := request_votes n1
  (res.1, Event.state_change .candidate n1.current_term :: res.2)

/-- `Node.handle_vote_request`. -/
def handle_vote_request (n : Node) (now : ℚ) (term cand : Nat) : Node × List Event :=
  let step1 :=
    if n.current_term < term then
      ({ n with current_term := term, state := NodeState.follower, voted_for := none },
       [Event.state_change .follower term])
    else (n, ([] : List Event))
  let n1 := step1.1
  let grant : Bool :=
    decide (n1.current_term ≤ term) && (n1.voted_for == none || n1.voted_for == some cand)
  let n2 := if grant then { n1 with voted_for := some cand, last_heartbeat := now } else n1
  let resp := Msg.voteResponse n2.id cand n2.current_term grant
  ({ n2 with message_queue := n2.message_queue ++ [resp] },
   step1.2 ++ [Event.message_sent resp])

/-- `Node.handle_vote_response`. -/
def handle_vote_response (n : Node) (term : Nat) (vote_granted : Bool) : Node × List Event :=
  if n.state ≠ NodeState.candidate then (n, [])
  else if n.current_term < term then
    ({ n with current_term := term, state := NodeState.follower, voted_for := none },
     [Event.state_change .follower term])
  else if vote_granted && decide (term = n.current_term) then
    let n1 := { n with votes_received := n.votes_received + 1 }
    -- Python compares `votes_received > nodes_count / 2` in real arithmetic;
    -- for integers that is exactly `2 * votes_received > nodes_count`.
    if n1.nodes_count < 2 * n1.votes_received then
      let n2 := { n1 with state := NodeState.leader }
      let res := send_heartbeats n2
      (res.1, Event.state_change .leader n2.current_term :: res.2)
    else (n1, [])
  else (n, [])

/-- `Node.handle_append_entries`. The reply dict is appended to the local
`message_queue` only: the source publishes no `message_sent` event for it. -/
def handle_append_entries (n : Node) (now : ℚ) (term leader_id : Nat) : Node × List Event :=
  let step1 :=
    if n.current_term < term then
      ({ n with current_term := term, state := NodeState.follower, voted_for := none },
       [Event.state_change .follower term])
    else (n, ([] : List Event))
  let n1 := step1.1
  let step2 :=
    if n1.current_term ≤ term then
      let n1' := { n1 with last_heartbeat := now }
      if n1'.state = NodeState.candidate then
        ({ n1' with state := NodeState.follower },
         [Event.state_change .follower n1'.current_term])
      else (n1', ([] : List Event))
    else (n1, ([] : List Event))
  let n2 := step2.1
  let resp := Msg.appendEntriesResponse n2.id leader_id n2.current_term
      (decide (n2.current_term ≤ term))
  ({ n2 with message_queue := n2.message_queue ++ [resp] },
   step1.2 ++ step2.2)

/-- `Node.receive_message`: dispatch on the `"type"` field; any other type
falls through with no effect. The source reads `message["from"]` and
`message["term"]` (and `vote_granted` for responses); `"to"` is not consulted. -/
def receive_message (n : Node) (now : ℚ) (m : Msg) : Node × List Event :=
  match m with
  | .requestVote src _ term => handle_vote_request n now term src
  | .voteResponse _ _ term granted => handle_vote_response n term granted
  | .appendEntries src _ term => handle_append_entries n now term src
  | .heartbeat _ _ _ => (n, [])
  | .appendEntriesResponse _ _ _ _ => (n, [])

/-- `Node.stop`. -/
def stopNode (n : Node) : Node :=
  { n with running := false }

/-- `Node.simulate_failure`. -/
def simulate_failure (n : Node) : Node × List Event :=
  ({ n with running := false }, [Event.node_failure n.id])

/-- `Node.restore`: a no-op on a running node; otherwise resume as follower
with the term incremented, the vote cleared and `last_heartbeat` forced one
second further into the past than the (unchanged) election timeout. -/
def restore (n : Node) (now : ℚ) : Node × List Event :=
  if n.running then (n, [])
  else
    ({ n with
        running := true
        state := NodeState.follower
        current_term := n.current_term + 1
        voted_for := none
        last_heartbeat := now - n.election_timeout - 1 },
     [Event.node_restore n.id])

/-! ## Cluster transport (`cluster.py`) -/

/-- One entry of the cluster-level observer stream: either a forwarded node
event (`node_event_callback` tags it with the node id) or a
`message_delivered` notification from the pump. -/
inductive TraceEntry where
  | node (id : Nat) (ev : Event)
  | delivered (m : Msg)
deriving DecidableEq, Repr

/-- The message dicts `node_event_callback` copies into the cluster's
`message_buffer`: the payloads of the `message_sent` events, in order. -/
def sentMessages (evs : List Event) : List Msg :=
  evs.filterMap (fun ev => match ev with
    | .message_sent m => some m
    | _ => none)

/-- The mutable state of `Cluster` (`cluster.py`). `nodes` is total over `Nat`
for convenience; only indices below `node_count` are ever touched. `trace` is
the cluster-level observer stream. -/
structure Cluster where
  node_count : Nat
  nodes : Nat → Node
  message_buffer : List Msg
  partitioned : Bool
  partition_groups : List (List Nat)
  trace : List TraceEntry

/-- `Cluster.can_deliver_message`. -/
def can_deliver_message (c : Cluster) (from_id to_id : Nat) : Bool :=
  if !c.partitioned then true
  else c.partition_groups.any (fun g => decide (from_id ∈ g) && decide (to_id ∈ g))

/-- `Cluster.__init__`: `r i` is node `i`'s constructor timeout draw, `now`
the construction time. -/
def initCluster (node_count : Nat) (r : Nat → Nat) (now : ℚ) : Cluster :=
  { node_count := node_count
    nodes := fun i => initNode i node_count (r i) now
    message_buffer := []
    partitioned := false
    partition_groups := []
    trace := [] }

/-- Effect of node `i` running an operation that returned `res`: the node is
updated, and `node_event_callback` forwards each published event to the
cluster observers and appends each `message_sent` payload to the buffer. -/
def applyNode (c : Cluster) (i : Nat) (res : Node × List Event) : Cluster :=
  { c with
      nodes := Function.update c.nodes i res.1
      message_buffer := c.message_buffer ++ sentMessages res.2
      trace := c.trace ++ res.2.map (TraceEntry.node i) }

/-- One interleaving step of the cluster: a node tick that fires an election
(`run`'s timeout branch), a leader heartbeat tick, the pump delivering or
partition-dropping the head of the buffer (`process_messages`; note the source
delivers regardless of the destination's `running` flag), fault injection
(`fail_node` / `restore_node`, bounds-checked as in the source), `Node.stop`,
and partition control. -/
inductive Step : Cluster → Cluster → Prop where
  | election (c : Cluster) (i : Nat) (now : ℚ) (r : Nat) :
      i < c.node_count →
      (c.nodes i).running = true →
      (c.nodes i).state ≠ NodeState.leader →
      (c.nodes i).election_timeout < now - (c.nodes i).last_heartbeat →
      Step c (applyNode c i (start_election (c.nodes i) now r))
  | heartbeat_tick (c : Cluster) (i : Nat) :
      i < c.node_count →
      (c.nodes i).running = true →
      (c.nodes i).state = NodeState.leader →
      Step c (applyNode c i (send_heartbeats (c.nodes i)))
  | deliver (c : Cluster) (m : Msg) (rest : List Msg) (now : ℚ) :
      c.message_buffer = m :: rest →
      m.dst < c.node_count →
      can_deliver_message c m.src m.dst = true →
      Step c
        { c with
            nodes := Function.update c.nodes m.dst (receive_message (c.nodes m.dst) now m).1
            message_buffer := rest ++ sentMessages (receive_message (c.nodes m.dst) now m).2
            trace := c.trace ++ (receive_message (c.nodes m.dst) now m).2.map (TraceEntry.node m.dst)
              ++ [TraceEntry.delivered m] }
  | drop (c : Cluster) (m : Msg) (rest : List Msg) :
      c.message_buffer = m :: rest →
      can_deliver_message c m.src m.dst = false →
      Step c { c with message_buffer := rest }
  | fail (c : Cluster) (i : Nat) :
      i < c.node_count →
      Step c (applyNode c i (simulate_failure (c.nodes i)))
  | restore_node (c : Cluster) (i : Nat) (now : ℚ) :
      i < c.node_count →
      Step c (applyNode c i (restore (c.nodes i) now))
  | stop_node (c : Cluster) (i : Nat) :
      i < c.node_count →
      Step c { c with nodes := Function.update c.nodes i (stopNode (c.nodes i)) }
  | create_partition (c : Cluster) (groups : List (List Nat)) :
      Step c { c with partitioned := true, partition_groups := groups }
  | heal_partition (c : Cluster) :
      Step c { c with partitioned := false, partition_groups := [] }

/-- States reachable from a freshly constructed cluster. -/
def Reachable (node_count : Nat) (r : Nat → Nat) (now : ℚ) (s : Cluster) : Prop :=
  Relation.ReflTransGen Step (initCluster node_count r now) s

/-! ## Trace accounting

Derived counters over the cluster observer stream and the pending buffer,
used to state the election-safety invariant. -/

/-- The forwarded `state_change` event of node `c` entering `Candidate` at
term `t` (published by `start_election`). -/
def candEvt (c t : Nat) : TraceEntry :=
  .node c (.state_change .candidate t)

/-- The forwarded `state_change` event of node `c` entering `Leader` at term
`t` (published by `handle_vote_response` on reaching a majority). -/
def leaderEvt (c t : Nat) : TraceEntry :=
  .node c (.state_change .leader t)

/-- The forwarded `message_sent` event for `RequestVote` from `c` to `v` at
term `t`. -/
def reqEvt (c v t : Nat) : TraceEntry :=
  .node c (.message_sent (.requestVote c v t))

/-- The forwarded `message_sent` event for a granted `VoteResponse` from `v`
to `c` at term `t`. -/
def grantEvt (v c t : Nat) : TraceEntry :=
  .node v (.message_sent (.voteResponse v c t true))

/-- Node `c` has published a transition into `Candidate` at term `t`. -/
def candAt (E : List TraceEntry) (c t : Nat) : Prop :=
  candEvt c t ∈ E

/-- Node `v` has published a granted `VoteResponse` to `c` at term `t`. -/
def grantedSent (E : List TraceEntry) (v c t : Nat) : Prop :=
  grantEvt v c t ∈ E

/-- Node `v` has cast a ballot for `c` at term `t`: either it granted `c` a
vote, or it is `c` itself and voted for itself when starting its election. -/
def castBallot (E : List TraceEntry) (v t c : Nat) : Prop :=
  grantedSent E v c t ∨ (v = c ∧ candAt E c t)

instance (E : List TraceEntry) (v t c : Nat) : Decidable (castBallot E v t c) := by
  unfold castBallot grantedSent candAt
  exact inferInstance

/-- The nodes that have cast a ballot for `c` at term `t`. -/
def ballots (E : List TraceEntry) (c t N : Nat) : Finset Nat :=
  (Finset.range N).filter (fun v => castBallot E v t c)

/-- Number of `Candidate` transitions of `c` at term `t` in the trace. -/
def candCount (E : List TraceEntry) (c t : Nat) : Nat :=
  E.count (candEvt c t)

/-- Number of `RequestVote(c → v, t)` send events in the trace. -/
def sentReqCount (E : List TraceEntry) (c v t : Nat) : Nat :=
  E.count (reqEvt c v t)

/-- Number of deliveries of `RequestVote(c → v, t)` recorded in the trace. -/
def deliveredReqCount (E : List TraceEntry) (c v t : Nat) : Nat :=
  E.count (.delivered (.requestVote c v t))

/-- Number of granted `VoteResponse(v → c, t)` send events in the trace. -/
def grantedSentCount (E : List TraceEntry) (v c t : Nat) : Nat :=
  E.count (grantEvt v c t)

/-- Number of deliveries of granted `VoteResponse(v → c, t)` in the trace. -/
def deliveredGrantedCount (E : List TraceEntry) (v c t : Nat) : Nat :=
  E.count (.delivered (.voteResponse v c t true))

/-- Multiplicity of `RequestVote(c → v, t)` in the pending buffer. -/
def netReqCount (B : List Msg) (c v t : Nat) : Nat :=
  B.count (.requestVote c v t)

/-- Multiplicity of granted `VoteResponse(v → c, t)` in the pending buffer. -/
def netGrantedCount (B : List Msg) (v c t : Nat) : Nat :=
  B.count (.voteResponse v c t true)

/-- The voters whose granted `VoteResponse` to `c` at term `t` has been
delivered (and hence counted by `c`). -/
def supporters (E : List TraceEntry) (c t N : Nat) : Finset Nat :=
  (Finset.range N).filter (fun v => 0 < deliveredGrantedCount E v c t)

/-- The inductive invariant of the cluster step relation from which election
safety follows.  `wf_*` are construction facts; `ballot_*` relate published
ballots to voter state; the `*Count` chain says each voter's granted vote for
`c` at `t` is backed by exactly one `RequestVote` from `c`'s unique election
at `t`; `votes_bound` ties a candidate's `votes_received` counter to delivered
granted responses; `leaderEvt_bound` records that every published `Leader`
transition was backed by a strict majority of ballots. -/
structure ClusterInv (s : Cluster) : Prop where
  wf_id : ∀ i < s.node_count, (s.nodes i).id = i
  wf_cnt : ∀ i < s.node_count, (s.nodes i).nodes_count = s.node_count
  net_src : ∀ m ∈ s.message_buffer, m.src < s.node_count
  ballot_term : ∀ v t c, castBallot s.trace v t c →
    t ≤ (s.nodes v).current_term ∧
      (t = (s.nodes v).current_term → (s.nodes v).voted_for = some c)
  ballot_unique : ∀ v t c₁ c₂, castBallot s.trace v t c₁ → castBallot s.trace v t c₂ → c₁ = c₂
  cand_once : ∀ c t, candCount s.trace c t ≤ 1
  req_self : ∀ c t, sentReqCount s.trace c c t = 0
  req_le_cand : ∀ c v t, sentReqCount s.trace c v t ≤ candCount s.trace c t
  req_conserve : ∀ c v t,
    netReqCount s.message_buffer c v t + deliveredReqCount s.trace c v t ≤
      sentReqCount s.trace c v t
  granted_le_req : ∀ v c t, grantedSentCount s.trace v c t ≤ deliveredReqCount s.trace c v t
  granted_conserve : ∀ v c t,
    netGrantedCount s.message_buffer v c t + deliveredGrantedCount s.trace v c t ≤
      grantedSentCount s.trace v c t
  cand_event : ∀ c < s.node_count, (s.nodes c).state = NodeState.candidate →
    candAt s.trace c (s.nodes c).current_term
  votes_bound : ∀ c < s.node_count, (s.nodes c).state = NodeState.candidate →
    (s.nodes c).votes_received ≤
      1 + (supporters s.trace c (s.nodes c).current_term s.node_count).card
  leaderEvt_bound : ∀ c t, leaderEvt c t ∈ s.trace →
    s.node_count < 2 * (ballots s.trace c t s.node_count).card
  leader_evt : ∀ c < s.node_count, (s.nodes c).state = NodeState.leader →
    leaderEvt c (s.nodes c).current_term ∈ s.trace

/-! ## Fixtures for the concrete scenarios -/

/-- A sequence of `handle_vote_request` deliveries to a single node; each
entry is `(delivery time, message term, candidate id)`.  Returns the final
node state and the concatenated event stream. -/
def runVoteRequests (n : Node) (reqs : List (ℚ × Nat × Nat)) : Node × List Event :=
  match reqs with
  | [] => (n, [])
  | r :: rest =>
      let res := handle_vote_request n r.1 r.2.1 r.2.2
      let res' := runVoteRequests res.1 rest
      (res'.1, res.2 ++ res'.2)

/-- A freshly constructed node `1` of a 3-node cluster (term 0, no vote). -/
def nodeB : Node :=
  initNode 1 3 150 0

/-- A crashed node whose election timeout happens to sit outside the default
redraw range: witnesses that `restore` does not redraw the timeout. -/
def crashedOddTimeoutNode : Node :=
  { initNode 0 3 150 0 with running := false, election_timeout := 999 }

/-- A crashed node (`simulate_failure` applied to a fresh node 0). -/
def crashedNode : Node :=
  (simulate_failure (initNode 0 3 150 0)).1

/-- A candidate in a 5-node cluster holding 2 votes (its own plus one). -/
def cand5 : Node :=
  { initNode 0 5 150 0 with
      state := NodeState.candidate, current_term := 1, voted_for := some 0, votes_received := 2 }

/-- A candidate in a 4-node cluster holding 2 votes. -/
def cand4 : Node :=
  { initNode 0 4 150 0 with
      state := NodeState.candidate, current_term := 1, voted_for := some 0, votes_received := 2 }

/-- A 3-node cluster partitioned into the single group `{0, 1}`; node 2 is in
no group. -/
def partitionedCluster : Cluster :=
  { initCluster 3 (fun _ => 150) 0 with partitioned := true, partition_groups := [[0, 1]] }

/-! ## Per-operation theorems -/

/-- **C10.** Heartbeats routed via the transport are never processed:
`send_heartbeats` publishes its `message_sent` events with the `heartbeat`
payload (not `append_entries`), and `receive_message` dispatches only
`request_vote`, `vote_response` and `append_entries`, so a delivered
`heartbeat` (or `append_entries_response`) changes no node state, emits no
event, and produces no `AppendEntriesResponse`; at cluster level the node map
is unchanged and nothing enters the buffer. -/
theorem heartbeats_never_processed :
    (∀ n : Node, (send_heartbeats n).2 =
        (peers n.nodes_count n.id).map
          (fun i => Event.message_sent (Msg.heartbeat n.id i n.current_term)))
    ∧ (∀ (n : Node) (now : ℚ) (s d t : Nat),
        receive_message n now (Msg.heartbeat s d t) = (n, []))
    ∧ (∀ (n : Node) (now : ℚ) (s d t : Nat) (suc : Bool),
        receive_message n now (Msg.appendEntriesResponse s d t suc) = (n, []))
    ∧ (∀ (c : Cluster) (now : ℚ) (s d t : Nat),
        Function.update c.nodes d (receive_message (c.nodes d) now (Msg.heartbeat s d t)).1 = c.nodes
        ∧ sentMessages (receive_message (c.nodes d) now (Msg.heartbeat s d t)).2 = []) := by
  refine ⟨fun n => rfl, fun n now s d t => rfl, fun n now s d t suc => rfl, fun c now s d t => ?_⟩
  constructor
  · show Function.update c.nodes d (c.nodes d) = c.nodes
    exact Function.update_eq_self d c.nodes
  · rfl

/-- **C8.** Partition filter semantics of `can_deliver_message`: always true
when not partitioned; when partitioned, true iff some installed group contains
both endpoints; a node in no group can neither send nor receive. -/
theorem can_deliver_semantics :
    (∀ (c : Cluster) (f t : Nat),
      can_deliver_message c f t = true ↔
        (c.partitioned = false ∨ ∃ g ∈ c.partition_groups, f ∈ g ∧ t ∈ g))
    ∧ (∀ (c : Cluster) (x y : Nat), c.partitioned = true →
        (∀ g ∈ c.partition_groups, x ∉ g) →
        can_deliver_message c x y = false ∧ can_deliver_message c y x = false) := by
  have base : ∀ (c : Cluster) (f t : Nat),
      can_deliver_message c f t = true ↔
        (c.partitioned = false ∨ ∃ g ∈ c.partition_groups, f ∈ g ∧ t ∈ g) := by
    intro c f t
    unfold can_deliver_message
    cases hp : c.partitioned <;> simp [List.any_eq_true]
  refine ⟨base, fun c x y hp hx => ?_⟩
  constructor
  · cases hd : can_deliver_message c x y with
    | false => rfl
    | true =>
        rcases (base c x y).mp hd with h | ⟨g, hg, hxg, _⟩
        · rw [hp] at h; cases h
        · exact absurd hxg (hx g hg)
  · cases hd : can_deliver_message c y x with
    | false => rfl
    | true =>
        rcases (base c y x).mp hd with h | ⟨g, hg, _, hxg⟩
        · rw [hp] at h; cases h
        · exact absurd hxg (hx g hg)

/-- Witness for C8 at a concrete partitioned cluster: node 2 is listed in no
group, so it is unreachable in both directions, and `0 ↔ 1` stays reachable. -/
theorem can_deliver_semantics_witness :
    can_deliver_message partitionedCluster 2 0 = false
    ∧ can_deliver_message partitionedCluster 0 2 = false
    ∧ can_deliver_message partitionedCluster 0 1 = true := by
  refine ⟨(can_deliver_semantics.2 partitionedCluster 2 0 rfl (by decide)).1,
          (can_deliver_semantics.2 partitionedCluster 2 0 rfl (by decide)).2,
          (can_deliver_semantics.1 partitionedCluster 0 1).mpr (Or.inr ⟨[0, 1], by decide, by decide, by decide⟩)⟩

/-- **C6.** The code violates crashed-node isolation: `receive_message` never
consults `running` (contradicting `simulate_failure`'s docstring "stop
processing messages"), so a crashed node still adopts the term, grants the
vote, and publishes the reply. -/
theorem crashed_node_still_processes :
    crashedNode.running = false
    ∧ (receive_message crashedNode 5 (Msg.requestVote 1 0 1)).1.current_term = 1
    ∧ (receive_message crashedNode 5 (Msg.requestVote 1 0 1)).1.voted_for = some 1
    ∧ (receive_message crashedNode 5 (Msg.requestVote 1 0 1)).2 =
        [Event.state_change .follower 1, Event.message_sent (Msg.voteResponse 0 1 1 true)] := by
  decide

/-- **C7.** The `VoteResponse` built by `handle_vote_request` is published on
the bus as a `message_sent` event, but the `AppendEntriesResponse` built by
`handle_append_entries` never is — for every input it is appended to the
node-local `message_queue` only, so it never reaches the transport. -/
theorem append_entries_response_unpublished :
    sentMessages (handle_vote_request (initNode 0 3 150 0) 5 1 1).2 = [Msg.voteResponse 0 1 1 true]
    ∧ (handle_append_entries (initNode 0 3 150 0) 5 1 1).1.message_queue =
        [Msg.appendEntriesResponse 0 1 1 true]
    ∧ sentMessages (handle_append_entries (initNode 0 3 150 0) 5 1 1).2 = []
    ∧ (∀ (n : Node) (now : ℚ) (term leader_id : Nat),
        sentMessages (handle_append_entries n now term leader_id).2 = []) := by
  refine ⟨by decide, by decide, by decide, fun n now term leader_id => ?_⟩
  simp only [handle_append_entries]
  by_cases h1 : n.current_term < term
  · simp [h1, sentMessages]
  · simp only [if_neg h1]
    by_cases h2 : n.current_term ≤ term
    · by_cases h3 : n.state = NodeState.candidate <;> simp [h2, h3, sentMessages]
    · simp [h2, sentMessages]

/-- **C5 (counterexample).** `restore` does not redraw the election timeout:
on a crashed node whose timeout sits outside the default draw range
`[reset_election_timeout 150, reset_election_timeout 300]`, the restored node
keeps its old timeout, which no redraw could produce. -/
theorem restore_timeout_cex :
    crashedOddTimeoutNode.running = false
    ∧ (restore crashedOddTimeoutNode 10).1.election_timeout = crashedOddTimeoutNode.election_timeout
    ∧ crashedOddTimeoutNode.election_timeout = 999
    ∧ ¬(reset_election_timeout 150 ≤ 999 ∧ (999 : ℚ) ≤ reset_election_timeout 300) := by
  refine ⟨by decide, by decide, by decide, ?_⟩
  unfold reset_election_timeout
  norm_num

/-- **C5 (amended).** The restore contract as the code implements it: a no-op
on a running node; on a crashed node it resumes as `Follower`, increments the
term by exactly 1, clears the vote, leaves `election_timeout` unchanged (no
redraw), and forces `last_heartbeat` far enough into the past that any tick at
time `≥ now` fires the election-timeout branch. -/
theorem restore_contract (n : Node) (now : ℚ) :
    (n.running = true → restore n now = (n, []))
    ∧ (n.running = false →
        (restore n now).1.running = true
        ∧ (restore n now).1.state = NodeState.follower
        ∧ (restore n now).1.current_term = n.current_term + 1
        ∧ (restore n now).1.voted_for = none
        ∧ (restore n now).1.election_timeout = n.election_timeout
        ∧ (restore n now).1.last_heartbeat = now - n.election_timeout - 1
        ∧ (∀ now' : ℚ, now ≤ now' →
            (restore n now).1.election_timeout < now' - (restore n now).1.last_heartbeat)
        ∧ (restore n now).2 = [Event.node_restore n.id]) := by
  constructor
  · intro hr
    simp [restore, hr]
  · intro hr
    have hres : restore n now =
        ({ n with
            running := true
            state := NodeState.follower
            current_term := n.current_term + 1
            voted_for := none
            last_heartbeat := now - n.election_timeout - 1 },
         [Event.node_restore n.id]) := by
      simp [restore, hr]
    rw [hres]
    refine ⟨rfl, rfl, rfl, rfl, rfl, rfl, fun now' hle => ?_, rfl⟩
    show n.election_timeout < now' - (now - n.election_timeout - 1)
    linarith

/-- Witness for C5: both branches of `restore_contract` at concrete nodes. -/
theorem restore_contract_witness :
    restore nodeB 3 = (nodeB, [])
    ∧ (restore crashedNode 10).1.current_term = crashedNode.current_term + 1
    ∧ (restore crashedNode 10).1.election_timeout = crashedNode.election_timeout := by
  refine ⟨(restore_contract nodeB 3).1 (by decide),
          ((restore_contract crashedNode 10).2 (by decide)).2.2.1,
          ((restore_contract crashedNode 10).2 (by decide)).2.2.2.2.1⟩

/-- **C4.** Strict-majority threshold: a `Candidate` processing a granted
`VoteResponse` at its own term increments `votes_received` and becomes
`Leader` exactly when the new count strictly exceeds `nodes_count / 2` (in
real arithmetic, i.e. `2 · votes > N`), emitting the `state_change` and an
immediate heartbeat batch; concretely 3 votes win for `N = 5` and for
`N = 4`, while 2 votes do not win for `N = 5`. -/
theorem majority_threshold :
    (∀ (n : Node) (term : Nat),
      n.state = NodeState.candidate → term = n.current_term →
      (handle_vote_response n term true).1.votes_received = n.votes_received + 1
      ∧ ((handle_vote_response n term true).1.state = NodeState.leader ↔
          n.nodes_count < 2 * (n.votes_received + 1))
      ∧ (n.nodes_count < 2 * (n.votes_received + 1) →
          (handle_vote_response n term true).2 =
            Event.state_change .leader n.current_term ::
              (peers n.nodes_count n.id).map
                (fun i => Event.message_sent (Msg.heartbeat n.id i n.current_term))))
    ∧ (handle_vote_response cand5 1 true).1.state = NodeState.leader
    ∧ (handle_vote_response { cand5 with votes_received := 1 } 1 true).1.state = NodeState.candidate
    ∧ (handle_vote_response cand4 1 true).1.state = NodeState.leader := by
  refine ⟨fun n term hc ht => ?_, by decide, by decide, by decide⟩
  subst ht
  have hne : ¬(n.state ≠ NodeState.candidate) := by simp [hc]
  by_cases hm : n.nodes_count < 2 * (n.votes_received + 1)
  · simp [handle_vote_response, hne, send_heartbeats, hm, hc]
  · simp [handle_vote_response, hne, hm, hc]

/-- Witness for C4 at the concrete 5-node candidate holding 2 votes. -/
theorem majority_threshold_witness :
    (handle_vote_response cand5 1 true).1.votes_received = cand5.votes_received + 1
    ∧ ((handle_vote_response cand5 1 true).1.state = NodeState.leader ↔
        cand5.nodes_count < 2 * (cand5.votes_received + 1)) :=
  ⟨(majority_threshold.1 cand5 1 (by decide) (by decide)).1,
   (majority_threshold.1 cand5 1 (by decide) (by decide)).2.1⟩

/-- **C3.** Vote-grant rule of `handle_vote_request`: adopt a strictly larger
term first (becoming `Follower` with the vote cleared), then grant iff the
message term is at least the (updated) current term and the (updated)
`voted_for` is none or the requesting candidate; on grant `voted_for` becomes
the candidate and `last_heartbeat` is set to `now`; the reply always carries
the updated term and the grant flag.  Consequently a fresh node grants two
successive requests from `A` at term 1 and refuses `C ≠ A` at term 1. -/
theorem vote_grant_rule :
    (∀ (n : Node) (now : ℚ) (term cand : Nat) (vf1 : Option Nat) (g : Bool),
      vf1 = (if n.current_term < term then none else n.voted_for) →
      g = (decide (n.current_term ≤ term) && (vf1 == none || vf1 == some cand)) →
      (handle_vote_request n now term cand).1.current_term = max n.current_term term
      ∧ (n.current_term < term → (handle_vote_request n now term cand).1.state = NodeState.follower)
      ∧ (handle_vote_request n now term cand).2 =
          (if n.current_term < term then [Event.state_change .follower term] else [])
            ++ [Event.message_sent (Msg.voteResponse n.id cand (max n.current_term term) g)]
      ∧ (g = true ↔ (n.current_term ≤ term ∧ (vf1 = none ∨ vf1 = some cand)))
      ∧ (g = true → (handle_vote_request n now term cand).1.voted_for = some cand
          ∧ (handle_vote_request n now term cand).1.last_heartbeat = now)
      ∧ (g = false → (handle_vote_request n now term cand).1.voted_for = vf1
          ∧ (handle_vote_request n now term cand).1.last_heartbeat = n.last_heartbeat))
    ∧ (runVoteRequests nodeB [(5, 1, 0), (6, 1, 0), (7, 1, 2)]).2.filterMap (fun ev =>
        match ev with
        | Event.message_sent (Msg.voteResponse _ dst _ g) => some (dst, g)
        | _ => none) = [(0, true), (0, true), (2, false)] := by
  refine ⟨fun n now term cand vf1 g hvf hg => ?_, by decide⟩
  subst hvf
  subst hg
  by_cases h : n.current_term < term
  · simp [handle_vote_request, h, Nat.le_of_lt h, Nat.max_eq_right (Nat.le_of_lt h)]
  · have hmax : max n.current_term term = n.current_term := Nat.max_eq_left (Nat.le_of_not_lt h)
    by_cases hd : n.current_term ≤ term
    · have heq : n.current_term = term := Nat.le_antisymm hd (Nat.le_of_not_lt h)
      by_cases hv : (n.voted_for == none || n.voted_for == some cand) = true
      · simp [handle_vote_request, h, hd, hv, hmax]
        exact ⟨heq, by simpa using hv⟩
      · simp [handle_vote_request, h, hd, hv, hmax]
        exact ⟨heq, by simpa using hv⟩
    · simp [handle_vote_request, h, hd, hmax]

/-- Witness for C3 at a fresh node: request from candidate 0 at term 1 is
granted, setting `voted_for` and `last_heartbeat`. -/
theorem vote_grant_rule_witness :
    (handle_vote_request nodeB 5 1 0).1.voted_for = some 0
    ∧ (handle_vote_request nodeB 5 1 0).1.last_heartbeat = 5
    ∧ (handle_vote_request nodeB 5 1 0).1.current_term = max nodeB.current_term 1 :=
  ⟨((vote_grant_rule.1 nodeB 5 1 0 none true (by decide) (by decide)).2.2.2.2.1 rfl).1,
   ((vote_grant_rule.1 nodeB 5 1 0 none true (by decide) (by decide)).2.2.2.2.1 rfl).2,
   (vote_grant_rule.1 nodeB 5 1 0 none true (by decide) (by decide)).1⟩

/-! ## Handler case analyses (helper lemmas) -/

/-- `handle_vote_request` does exactly one of three things: adopt-and-grant
(strictly larger term), grant at the current term, or refuse. -/
theorem hvr_cases (n : Node) (now : ℚ) (term cand : Nat) :
    (n.current_term < term ∧
      handle_vote_request n now term cand =
        ({ n with
            current_term := term
            state := NodeState.follower
            voted_for := some cand
            last_heartbeat := now
            message_queue := n.message_queue ++ [Msg.voteResponse n.id cand term true] },
         [Event.state_change .follower term,
          Event.message_sent (Msg.voteResponse n.id cand term true)]))
    ∨ (n.current_term = term ∧ (n.voted_for = none ∨ n.voted_for = some cand) ∧
      handle_vote_request n now term cand =
        ({ n with
            voted_for := some cand
            last_heartbeat := now
            message_queue := n.message_queue ++ [Msg.voteResponse n.id cand n.current_term true] },
         [Event.message_sent (Msg.voteResponse n.id cand n.current_term true)]))
    ∨ (¬n.current_term < term
      ∧ ¬(n.current_term = term ∧ (n.voted_for = none ∨ n.voted_for = some cand)) ∧
      handle_vote_request n now term cand =
        ({ n with message_queue := n.message_queue ++ [Msg.voteResponse n.id cand n.current_term false] },
         [Event.message_sent (Msg.voteResponse n.id cand n.current_term false)])) := by
  by_cases h : n.current_term < term
  · left
    refine ⟨h, ?_⟩
    simp [handle_vote_request, h, Nat.le_of_lt h]
  · by_cases hd : n.current_term ≤ term
    · have heq : n.current_term = term := Nat.le_antisymm hd (Nat.le_of_not_lt h)
      by_cases hv : n.voted_for = none ∨ n.voted_for = some cand
      · right; left
        have hvb : (n.voted_for == none || n.voted_for == some cand) = true := by
          rcases hv with h1 | h1 <;> simp [h1]
        refine ⟨heq, hv, ?_⟩
        simp [handle_vote_request, h, hd, hvb]
      · right; right
        have hvb : (n.voted_for == none || n.voted_for == some cand) = false := by
          simpa using hv
        refine ⟨h, fun hc => hv hc.2, ?_⟩
        simp [handle_vote_request, h, hd, hvb]
    · right; right
      refine ⟨h, fun hc => hd (le_of_eq hc.1), ?_⟩
      simp [handle_vote_request, h, hd]

/-- `handle_vote_response` does exactly one of five things: ignore (not a
candidate), step down on a larger term, count a vote and win, count a vote
without winning, or ignore the response. -/
theorem hvresp_cases (n : Node) (term : Nat) (g : Bool) :
    (n.state ≠ NodeState.candidate ∧ handle_vote_response n term g = (n, []))
    ∨ (n.state = NodeState.candidate ∧ n.current_term < term ∧
        handle_vote_response n term g =
          ({ n with current_term := term, state := NodeState.follower, voted_for := none },
           [Event.state_change .follower term]))
    ∨ (n.state = NodeState.candidate ∧ ¬n.current_term < term ∧ g = true ∧ term = n.current_term ∧
        n.nodes_count < 2 * (n.votes_received + 1) ∧
        handle_vote_response n term g =
          ({ n with
              state := NodeState.leader
              votes_received := n.votes_received + 1
              message_queue := n.message_queue ++ (peers n.nodes_count n.id).map
                (fun i => Msg.appendEntries n.id i n.current_term) },
           Event.state_change .leader n.current_term ::
             (peers n.nodes_count n.id).map
               (fun i => Event.message_sent (Msg.heartbeat n.id i n.current_term))))
    ∨ (n.state = NodeState.candidate ∧ ¬n.current_term < term ∧ g = true ∧ term = n.current_term ∧
        ¬n.nodes_count < 2 * (n.votes_received + 1) ∧
        handle_vote_response n term g =
          ({ n with votes_received := n.votes_received + 1 }, []))
    ∨ (n.state = NodeState.candidate ∧ ¬n.current_term < term ∧
        ¬(g = true ∧ term = n.current_term) ∧
        handle_vote_response n term g = (n, [])) := by
  by_cases hst : n.state = NodeState.candidate
  · by_cases hlt : n.current_term < term
    · right; left
      exact ⟨hst, hlt, by simp [handle_vote_response, hst, hlt]⟩
    · by_cases hg : g = true ∧ term = n.current_term
      · by_cases hm : n.nodes_count < 2 * (n.votes_received + 1)
        · right; right; left
          refine ⟨hst, hlt, hg.1, hg.2, hm, ?_⟩
          simp [handle_vote_response, hst, hlt, hg.1, hg.2, hm, send_heartbeats]
        · right; right; right; left
          refine ⟨hst, hlt, hg.1, hg.2, hm, ?_⟩
          simp [handle_vote_response, hst, hlt, hg.1, hg.2, hm]
      · right; right; right; right
        have hgb : (g && decide (term = n.current_term)) = false := by
          cases g with
          | false => simp
          | true =>
              simp only [Bool.true_and, decide_eq_false_iff_not]
              exact fun hc => hg ⟨rfl, hc⟩
        refine ⟨hst, hlt, hg, ?_⟩
        simp [handle_vote_response, hst, hlt, hgb]
  · left
    exact ⟨hst, by simp [handle_vote_response, hst]⟩

/-- `handle_append_entries` does exactly one of four things: adopt a larger
term, accept at the current term stepping down from candidacy, accept at the
current term as non-candidate, or refuse a stale term. -/
theorem hae_cases (n : Node) (now : ℚ) (term leader_id : Nat) :
    (n.current_term < term ∧
        handle_append_entries n now term leader_id =
          ({ n with
              current_term := term
              state := NodeState.follower
              voted_for := none
              last_heartbeat := now
              message_queue := n.message_queue ++ [Msg.appendEntriesResponse n.id leader_id term true] },
           [Event.state_change .follower term]))
    ∨ (¬n.current_term < term ∧ n.current_term ≤ term ∧ n.state = NodeState.candidate ∧
        handle_append_entries n now term leader_id =
          ({ n with
              state := NodeState.follower
              last_heartbeat := now
              message_queue := n.message_queue ++ [Msg.appendEntriesResponse n.id leader_id n.current_term true] },
           [Event.state_change .follower n.current_term]))
    ∨ (¬n.current_term < term ∧ n.current_term ≤ term ∧ n.state ≠ NodeState.candidate ∧
        handle_append_entries n now term leader_id =
          ({ n with
              last_heartbeat := now
              message_queue := n.message_queue ++ [Msg.appendEntriesResponse n.id leader_id n.current_term true] },
           []))
    ∨ (¬n.current_term ≤ term ∧
        handle_append_entries n now term leader_id =
          ({ n with message_queue := n.message_queue ++ [Msg.appendEntriesResponse n.id leader_id n.current_term false] },
           [])) := by
  by_cases h : n.current_term < term
  · left
    refine ⟨h, ?_⟩
    simp [handle_append_entries, h, Nat.le_of_lt h]
  · by_cases hd : n.current_term ≤ term
    · by_cases hst : n.state = NodeState.candidate
      · right; left
        exact ⟨h, hd, hst, by simp [handle_append_entries, h, hd, hst]⟩
      · right; right; left
        exact ⟨h, hd, hst, by simp [handle_append_entries, h, hd, hst]⟩
    · right; right; right
      exact ⟨hd, by simp [handle_append_entries, h, hd]⟩

/-- Explicit form of `start_election`. -/
theorem start_election_eq (n : Node) (now : ℚ) (r : Nat) :
    start_election n now r =
      ({ n with
          state := NodeState.candidate
          current_term := n.current_term + 1
          voted_for := some n.id
          votes_received := 1
          election_timeout := reset_election_timeout r
          last_heartbeat := now
          message_queue := n.message_queue ++ (peers n.nodes_count n.id).map
            (fun i => Msg.requestVote n.id i (n.current_term + 1)) },
       Event.state_change .candidate (n.current_term + 1) ::
         (peers n.nodes_count n.id).map
           (fun i => Event.message_sent (Msg.requestVote n.id i (n.current_term + 1)))) := by
  simp [start_election, request_votes]

/-! ## C9: granted votes within a term -/

/-- Term monotonicity of a single `handle_vote_request` call. -/
theorem hvr_term_mono (n : Node) (now : ℚ) (term cand : Nat) :
    n.current_term ≤ (handle_vote_request n now term cand).1.current_term := by
  rcases hvr_cases n now term cand with ⟨h, he⟩ | ⟨h, _, he⟩ | ⟨h, _, he⟩ <;> rw [he]
  exact Nat.le_of_lt h

/-- Term monotonicity along a request sequence. -/
theorem run_term_mono (reqs : List (ℚ × Nat × Nat)) (n : Node) :
    n.current_term ≤ (runVoteRequests n reqs).1.current_term := by
  induction reqs generalizing n with
  | nil => exact le_refl _
  | cons r rest ih =>
      exact le_trans (hvr_term_mono n r.1 r.2.1 r.2.2) (ih _)

/-- A granted response emitted during a request sequence carries a term at
least the node's starting term. -/
theorem granted_term_ge (reqs : List (ℚ × Nat × Nat)) (n : Node) (s c t : Nat) :
    Event.message_sent (Msg.voteResponse s c t true) ∈ (runVoteRequests n reqs).2 →
    n.current_term ≤ t := by
  induction reqs generalizing n with
  | nil => intro hm; simp [runVoteRequests] at hm
  | cons r rest ih =>
      intro hm
      simp only [runVoteRequests, List.mem_append] at hm
      rcases hm with hm | hm
      · rcases hvr_cases n r.1 r.2.1 r.2.2 with ⟨h, he⟩ | ⟨h, _, he⟩ | ⟨h1, h2, he⟩ <;>
          rw [he] at hm <;> simp at hm
        · rcases hm with ⟨_, _, rfl⟩
          exact Nat.le_of_lt h
        · rcases hm with ⟨_, _, rfl⟩
          exact le_refl _
      · exact le_trans (hvr_term_mono n r.1 r.2.1 r.2.2) (ih _ hm)

/-- If the node has already committed its vote at its current term, every
granted response it emits at that term during any further request sequence
names the committed candidate. -/
theorem granted_future_same (reqs : List (ℚ × Nat × Nat)) :
    ∀ (n : Node) (c₀ s c t : Nat),
    n.voted_for = some c₀ → t = n.current_term →
    Event.message_sent (Msg.voteResponse s c t true) ∈ (runVoteRequests n reqs).2 →
    c = c₀ := by
  induction reqs with
  | nil =>
      intro n c₀ s c t _ _ hm
      simp [runVoteRequests] at hm
  | cons r rest ih =>
      intro n c₀ s c t hvf ht hm
      simp only [runVoteRequests, List.mem_append] at hm
      rcases hvr_cases n r.1 r.2.1 r.2.2 with ⟨h, he⟩ | ⟨heq, hv, he⟩ | ⟨h1, h2, he⟩
      · rcases hm with hm | hm
        · rw [he] at hm
          simp at hm
          omega
        · have hge := granted_term_ge rest _ s c t hm
          rw [he] at hge
          simp only at hge
          omega
      · have hcand : r.2.2 = c₀ := by
          rcases hv with h1 | h1
          · rw [hvf] at h1; cases h1
          · rw [hvf] at h1; exact (Option.some_inj.mp h1).symm
        rcases hm with hm | hm
        · rw [he] at hm
          simp at hm
          rw [hm.2.1, hcand]
        · rw [he] at hm
          exact ih _ c₀ s c t (by exact hcand ▸ rfl) (by exact ht) hm
      · rcases hm with hm | hm
        · rw [he] at hm
          simp at hm
        · rw [he] at hm
          exact ih _ c₀ s c t (by exact hvf) (by exact ht) hm

/-- **C9 (counterexample).** A fresh node handling the same
`RequestVote(from = 0, term = 1)` twice emits two granted `VoteResponse`s at
term 1 — more than the claimed one granted response per node per term. -/
theorem at_most_one_granted_cex :
    (runVoteRequests nodeB [(5, 1, 0), (6, 1, 0)]).2.count
      (Event.message_sent (Msg.voteResponse 1 0 1 true)) = 2 := by
  decide

/-- **C9 (amended).** Across any sequence of `handle_vote_request`
invocations, all granted `VoteResponse`s a node emits at one term name the
same candidate (at most one distinct candidate is granted per term). -/
theorem granted_votes_single_candidate (n : Node) (reqs : List (ℚ × Nat × Nat))
    (s₁ s₂ t c₁ c₂ : Nat)
    (h₁ : Event.message_sent (Msg.voteResponse s₁ c₁ t true) ∈ (runVoteRequests n reqs).2)
    (h₂ : Event.message_sent (Msg.voteResponse s₂ c₂ t true) ∈ (runVoteRequests n reqs).2) :
    c₁ = c₂ := by
  induction reqs generalizing n with
  | nil => simp [runVoteRequests] at h₁
  | cons r rest ih =>
      simp only [runVoteRequests, List.mem_append] at h₁ h₂
      rcases hvr_cases n r.1 r.2.1 r.2.2 with ⟨h, he⟩ | ⟨heq, hv, he⟩ | ⟨ha, hb, he⟩
      · rcases h₁ with h₁ | h₁ <;> rcases h₂ with h₂ | h₂
        · rw [he] at h₁ h₂
          simp at h₁ h₂
          rw [h₁.2.1, h₂.2.1]
        · rw [he] at h₁ h₂
          simp at h₁
          have hc2 : c₂ = r.2.2 :=
            granted_future_same rest _ r.2.2 s₂ c₂ t rfl (by exact h₁.2.2) h₂
          rw [h₁.2.1, hc2]
        · rw [he] at h₁ h₂
          simp at h₂
          have hc1 : c₁ = r.2.2 :=
            granted_future_same rest _ r.2.2 s₁ c₁ t rfl (by exact h₂.2.2) h₁
          rw [hc1, h₂.2.1]
        · rw [he] at h₁ h₂
          exact ih _ h₁ h₂
      · rcases h₁ with h₁ | h₁ <;> rcases h₂ with h₂ | h₂
        · rw [he] at h₁ h₂
          simp at h₁ h₂
          rw [h₁.2.1, h₂.2.1]
        · rw [he] at h₁ h₂
          simp at h₁
          have hc2 : c₂ = r.2.2 :=
            granted_future_same rest _ r.2.2 s₂ c₂ t rfl (by exact h₁.2.2) h₂
          rw [h₁.2.1, hc2]
        · rw [he] at h₁ h₂
          simp at h₂
          have hc1 : c₁ = r.2.2 :=
            granted_future_same rest _ r.2.2 s₁ c₁ t rfl (by exact h₂.2.2) h₁
          rw [hc1, h₂.2.1]
        · rw [he] at h₁ h₂
          exact ih _ h₁ h₂
      · rcases h₁ with h₁ | h₁
        · rw [he] at h₁
          simp at h₁
        · rcases h₂ with h₂ | h₂
          · rw [he] at h₂
            simp at h₂
          · rw [he] at h₁ h₂
            exact ih _ h₁ h₂

/-- Witness for the amended C9 at the double-grant run: both granted
responses name candidate 0. -/
theorem granted_votes_single_candidate_witness :
    Event.message_sent (Msg.voteResponse 1 0 1 true) ∈ (runVoteRequests nodeB [(5, 1, 0), (6, 1, 0)]).2
    ∧ (0 : Nat) = 0 :=
  ⟨by decide,
   granted_votes_single_candidate nodeB [(5, 1, 0), (6, 1, 0)] 1 1 1 0 0 (by decide) (by decide)⟩

/-! ## Counting lemmas for the cluster invariant -/

/-- Multiplicity of a payload in the buffered messages equals the
multiplicity of its `message_sent` event in the event list. -/
theorem count_sentMessages (evs : List Event) (m : Msg) :
    (sentMessages evs).count m = evs.count (Event.message_sent m) := by
  induction evs with
  | nil => rfl
  | cons e evs ih =>
      cases e with
      | message_sent m' =>
          simp only [sentMessages, List.filterMap_cons] at ih ⊢
          by_cases h : m' = m
          · subst h
            simp [List.count_cons, ih]
          · have h2 : Event.message_sent m' ≠ Event.message_sent m := by
              intro hc; cases hc; exact h rfl
            simp [List.count_cons, h, h2, ih]
      | state_change st t =>
          simpa [sentMessages, List.filterMap_cons, List.count_cons] using ih
      | node_failure i =>
          simpa [sentMessages, List.filterMap_cons, List.count_cons] using ih
      | node_restore i =>
          simpa [sentMessages, List.filterMap_cons, List.count_cons] using ih

/-- Counting a node-tagged entry in a mapped event list. -/
theorem count_trace_map_node (i j : Nat) (evs : List Event) (ev : Event) :
    (evs.map (TraceEntry.node i)).count (TraceEntry.node j ev) =
      if j = i then evs.count ev else 0 := by
  by_cases h : j = i
  · subst h
    rw [if_pos rfl]
    exact List.count_map_of_injective evs (TraceEntry.node j)
      (fun a b hab => by cases hab; rfl) ev
  · rw [if_neg h]
    refine List.count_eq_zero.mpr ?_
    simp only [List.mem_map, not_exists, not_and]
    intro ev' _ hc
    cases hc
    exact absurd rfl h

/-- A mapped node-event list contains no `delivered` entries. -/
theorem count_trace_map_delivered (i : Nat) (evs : List Event) (m : Msg) :
    (evs.map (TraceEntry.node i)).count (TraceEntry.delivered m) = 0 := by
  refine List.count_eq_zero.mpr ?_
  simp

/-- Counting under a map that never produces the element. -/
theorem count_map_zero {α β : Type} [DecidableEq β] (l : List α) (f : α → β) (b : β)
    (h : ∀ a, f a ≠ b) : (l.map f).count b = 0 := by
  refine List.count_eq_zero.mpr ?_
  simp only [List.mem_map, not_exists, not_and]
  exact fun a _ => h a

/-- Counting a `message_sent` pattern under an event-wrapping map. -/
theorem count_map_event_sent {α : Type} (l : List α) (f : α → Msg) (m : Msg) :
    (l.map (fun a => Event.message_sent (f a))).count (Event.message_sent m) =
      (l.map f).count m := by
  have : l.map (fun a => Event.message_sent (f a)) = (l.map f).map Event.message_sent := by
    simp [List.map_map, Function.comp]
  rw [this]
  exact List.count_map_of_injective (l.map f) Event.message_sent
    (fun a b hab => by cases hab; rfl) m

/-- The peer list is duplicate-free. -/
theorem peers_nodup (N id : Nat) : (peers N id).Nodup :=
  (List.nodup_range N).filter _

/-- Membership in the peer list. -/
theorem mem_peers (N id v : Nat) : v ∈ peers N id ↔ v < N ∧ v ≠ id := by
  simp [peers, List.mem_filter, List.mem_range, and_comm]

/-- Multiplicity in the peer list. -/
theorem count_peers (N id v : Nat) : (peers N id).count v = if v < N ∧ v ≠ id then 1 else 0 := by
  by_cases h : v < N ∧ v ≠ id
  · rw [if_pos h]
    exact List.count_eq_one_of_mem (peers_nodup N id) ((mem_peers N id v).mpr h)
  · rw [if_neg h]
    exact List.count_eq_zero.mpr (fun hc => h ((mem_peers N id v).mp hc))

/-- Counting a `RequestVote` pattern in a mapped request batch. -/
theorem count_map_reqVote (l : List Nat) (s t sp v tp : Nat) :
    (l.map (fun j => Msg.requestVote s j t)).count (Msg.requestVote sp v tp) =
      if sp = s ∧ tp = t then l.count v else 0 := by
  by_cases h : sp = s ∧ tp = t
  · rcases h with ⟨rfl, rfl⟩
    rw [if_pos ⟨rfl, rfl⟩]
    exact List.count_map_of_injective l (fun j => Msg.requestVote sp j tp)
      (fun a b hab => by cases hab; rfl) v
  · rw [if_neg h]
    refine count_map_zero l _ _ (fun a hc => ?_)
    cases hc
    exact h ⟨rfl, rfl⟩

/-- `sentMessages` distributes over append. -/
theorem sentMessages_append (a b : List Event) :
    sentMessages (a ++ b) = sentMessages a ++ sentMessages b :=
  List.filterMap_append a b _

/-- `sentMessages` of a batch of wrapped payloads. -/
theorem sentMessages_map_sent {α : Type} (l : List α) (f : α → Msg) :
    sentMessages (l.map (fun a => Event.message_sent (f a))) = l.map f := by
  induction l with
  | nil => rfl
  | cons a l ih =>
      simp only [List.map_cons, sentMessages, List.filterMap_cons] at ih ⊢
      rw [ih]

/-- Adding node-`i` events to the trace adds the matching `message_sent`
multiplicities to the sender-stamped send counters (payloads from node `i`
carry `src = i`). -/
theorem count_trace_add_sent (E : List TraceEntry) (evs : List Event) (i : Nat)
    (hsrc : ∀ m' ∈ sentMessages evs, m'.src = i) (m : Msg) :
    (E ++ evs.map (TraceEntry.node i)).count (TraceEntry.node m.src (Event.message_sent m)) =
      E.count (TraceEntry.node m.src (Event.message_sent m)) + evs.count (Event.message_sent m) := by
  rw [List.count_append, count_trace_map_node]
  by_cases h : m.src = i
  · rw [if_pos h]
  · rw [if_neg h]
    have hz : evs.count (Event.message_sent m) = 0 := by
      rw [← count_sentMessages]
      exact List.count_eq_zero.mpr (fun hc => h (hsrc m hc))
    omega

/-- Adding node-`i` events to the trace and counting a `state_change`
pattern. -/
theorem count_trace_add_state (E : List TraceEntry) (evs : List Event) (i c : Nat)
    (st : NodeState) (t : Nat) :
    (E ++ evs.map (TraceEntry.node i)).count (TraceEntry.node c (Event.state_change st t)) =
      E.count (TraceEntry.node c (Event.state_change st t)) +
        (if c = i then evs.count (Event.state_change st t) else 0) := by
  rw [List.count_append, count_trace_map_node]

/-- Adding node events never adds `delivered` entries. -/
theorem count_trace_add_delivered (E : List TraceEntry) (evs : List Event) (i : Nat) (m : Msg) :
    (E ++ evs.map (TraceEntry.node i)).count (TraceEntry.delivered m) =
      E.count (TraceEntry.delivered m) := by
  rw [List.count_append, count_trace_map_delivered]
  omega

/-- `castBallot` is monotone under trace extension. -/
theorem castBallot_append (E F : List TraceEntry) (v t c : Nat) :
    castBallot E v t c → castBallot (E ++ F) v t c := by
  rintro (h | ⟨rfl, h⟩)
  · exact Or.inl (List.mem_append_left _ h)
  · exact Or.inr ⟨rfl, List.mem_append_left _ h⟩

/-- Ballots in an extended trace come from the old trace or the new events. -/
theorem castBallot_append_elim (E F : List TraceEntry) (v t c : Nat) :
    castBallot (E ++ F) v t c →
    castBallot E v t c ∨ grantEvt v c t ∈ F ∨ (v = c ∧ candEvt c t ∈ F) := by
  rintro (h | ⟨rfl, h⟩)
  · rcases List.mem_append.mp h with h | h
    · exact Or.inl (Or.inl h)
    · exact Or.inr (Or.inl h)
  · rcases List.mem_append.mp h with h | h
    · exact Or.inl (Or.inr ⟨rfl, h⟩)
    · exact Or.inr (Or.inr ⟨rfl, h⟩)

/-- Membership of a granted-vote event in a mapped node-event batch. -/
theorem grantEvt_mem_map (i : Nat) (evs : List Event) (v c t : Nat) :
    grantEvt v c t ∈ evs.map (TraceEntry.node i) ↔
      v = i ∧ Event.message_sent (Msg.voteResponse v c t true) ∈ evs := by
  unfold grantEvt
  simp only [List.mem_map]
  constructor
  · rintro ⟨ev, hmem, heq⟩
    cases heq
    exact ⟨rfl, hmem⟩
  · rintro ⟨rfl, hmem⟩
    exact ⟨_, hmem, rfl⟩

/-- Membership of a candidate transition in a mapped node-event batch. -/
theorem candEvt_mem_map (i : Nat) (evs : List Event) (c t : Nat) :
    candEvt c t ∈ evs.map (TraceEntry.node i) ↔
      c = i ∧ Event.state_change .candidate t ∈ evs := by
  unfold candEvt
  simp only [List.mem_map]
  constructor
  · rintro ⟨ev, hmem, heq⟩
    cases heq
    exact ⟨rfl, hmem⟩
  · rintro ⟨rfl, hmem⟩
    exact ⟨_, hmem, rfl⟩

/-- Membership of a leader transition in a mapped node-event batch. -/
theorem leaderEvt_mem_map (i : Nat) (evs : List Event) (c t : Nat) :
    leaderEvt c t ∈ evs.map (TraceEntry.node i) ↔
      c = i ∧ Event.state_change .leader t ∈ evs := by
  unfold leaderEvt
  simp only [List.mem_map]
  constructor
  · rintro ⟨ev, hmem, heq⟩
    cases heq
    exact ⟨rfl, hmem⟩
  · rintro ⟨rfl, hmem⟩
    exact ⟨_, hmem, rfl⟩

/-- Supporters only depend on `delivered` entries, which node events never
add. -/
theorem supporters_append_node (E : List TraceEntry) (evs : List Event) (i c t N : Nat) :
    supporters (E ++ evs.map (TraceEntry.node i)) c t N = supporters E c t N := by
  unfold supporters deliveredGrantedCount
  apply Finset.filter_congr
  intro v _
  rw [count_trace_add_delivered]

/-- Ballot sets grow with the trace. -/
theorem ballots_card_mono (E F : List TraceEntry) (c t N : Nat) :
    (ballots E c t N).card ≤ (ballots (E ++ F) c t N).card := by
  apply Finset.card_le_card
  intro v hv
  rw [ballots, Finset.mem_filter] at hv ⊢
  exact ⟨hv.1, castBallot_append E F v t c hv.2⟩

/-! ## Invariant preservation: administrative steps -/

/-- `create_partition` and `heal_partition` leave nodes, buffer and trace
untouched. -/
theorem inv_partition_fields (c : Cluster) (p : Bool) (g : List (List Nat))
    (h : ClusterInv c) :
    ClusterInv { c with partitioned := p, partition_groups := g } :=
  ⟨h.wf_id, h.wf_cnt, h.net_src, h.ballot_term, h.ballot_unique, h.cand_once, h.req_self,
   h.req_le_cand, h.req_conserve, h.granted_le_req, h.granted_conserve, h.cand_event,
   h.votes_bound, h.leaderEvt_bound, h.leader_evt⟩

/-- Dropping the head of the buffer preserves the invariant. -/
theorem inv_drop_step (c : Cluster) (m : Msg) (rest : List Msg)
    (hbuf : c.message_buffer = m :: rest) (h : ClusterInv c) :
    ClusterInv { c with message_buffer := rest } := by
  refine ⟨h.wf_id, h.wf_cnt, ?_, h.ballot_term, h.ballot_unique, h.cand_once, h.req_self,
    h.req_le_cand, ?_, h.granted_le_req, ?_, h.cand_event, h.votes_bound, h.leaderEvt_bound,
    h.leader_evt⟩
  · intro m' hm'
    exact h.net_src m' (by rw [hbuf]; exact List.mem_cons_of_mem _ hm')
  · intro cc v t
    dsimp only
    have hc := h.req_conserve cc v t
    rw [hbuf] at hc
    unfold netReqCount at hc ⊢
    rw [List.count_cons] at hc
    omega
  · intro v cc t
    dsimp only
    have hc := h.granted_conserve v cc t
    rw [hbuf] at hc
    unfold netGrantedCount at hc ⊢
    rw [List.count_cons] at hc
    omega

/-- `Node.stop` only clears `running`; every invariant field transfers. -/
theorem inv_stop_step (c : Cluster) (i : Nat) (hi : i < c.node_count) (h : ClusterInv c) :
    ClusterInv { c with nodes := Function.update c.nodes i (stopNode (c.nodes i)) } := by
  have hup : ∀ v, Function.update c.nodes i (stopNode (c.nodes i)) v =
      (if v = i then stopNode (c.nodes i) else c.nodes v) := fun v => Function.update_apply ..
  refine ⟨?_, ?_, h.net_src, ?_, h.ballot_unique, h.cand_once, h.req_self, h.req_le_cand,
    h.req_conserve, h.granted_le_req, h.granted_conserve, ?_, ?_, h.leaderEvt_bound, ?_⟩
  · intro v hv
    dsimp only at hv ⊢
    rw [hup v]
    split_ifs with hvi
    · subst hvi; exact h.wf_id v hv
    · exact h.wf_id v hv
  · intro v hv
    dsimp only at hv ⊢
    rw [hup v]
    split_ifs with hvi
    · subst hvi; exact h.wf_cnt v hv
    · exact h.wf_cnt v hv
  · intro v t cc hb
    dsimp only at hb ⊢
    rw [hup v]
    split_ifs with hvi
    · subst hvi; exact h.ballot_term v t cc hb
    · exact h.ballot_term v t cc hb
  · intro v hv hst
    dsimp only at hv hst ⊢
    rw [hup v] at hst ⊢
    split_ifs at hst ⊢ with hvi
    · subst hvi; exact h.cand_event v hv hst
    · exact h.cand_event v hv hst
  · intro v hv hst
    dsimp only at hv hst ⊢
    rw [hup v] at hst ⊢
    split_ifs at hst ⊢ with hvi
    · subst hvi; exact h.votes_bound v hv hst
    · exact h.votes_bound v hv hst
  · intro v hv hst
    dsimp only at hv hst ⊢
    rw [hup v] at hst ⊢
    split_ifs at hst ⊢ with hvi
    · subst hvi; exact h.leader_evt v hv hst
    · exact h.leader_evt v hv hst

/-- Preservation of the invariant under any node operation that publishes no
candidate/leader transitions, no `RequestVote` sends and no granted
`VoteResponse`s, keeps identity fields, and preserves the ballot relation and
the candidate/leader bookkeeping of the touched node. -/
theorem inv_neutral_update (c : Cluster) (i : Nat) (hi : i < c.node_count)
    (n' : Node) (evs : List Event) (h : ClusterInv c)
    (hid : n'.id = (c.nodes i).id)
    (hcnt : n'.nodes_count = (c.nodes i).nodes_count)
    (hsrc : ∀ m ∈ sentMessages evs, m.src = i)
    (hnocand : ∀ t, Event.state_change .candidate t ∉ evs)
    (hnolead : ∀ t, Event.state_change .leader t ∉ evs)
    (hnoreq : ∀ s d t, Event.message_sent (Msg.requestVote s d t) ∉ evs)
    (hnogrant : ∀ s d t, Event.message_sent (Msg.voteResponse s d t true) ∉ evs)
    (hbt : ∀ t cc, castBallot c.trace i t cc →
        t ≤ n'.current_term ∧ (t = n'.current_term → n'.voted_for = some cc))
    (hcand : n'.state = NodeState.candidate →
        (c.nodes i).state = NodeState.candidate ∧ n'.current_term = (c.nodes i).current_term
          ∧ n'.votes_received = (c.nodes i).votes_received)
    (hlead : n'.state = NodeState.leader →
        (c.nodes i).state = NodeState.leader ∧ n'.current_term = (c.nodes i).current_term) :
    ClusterInv (applyNode c i (n', evs)) := by
  have hup : ∀ v, Function.update c.nodes i n' v = (if v = i then n' else c.nodes v) :=
    fun v => Function.update_apply ..
  have hnoballots : ∀ v t cc, castBallot (c.trace ++ evs.map (TraceEntry.node i)) v t cc →
      castBallot c.trace v t cc := by
    intro v t cc hb
    rcases castBallot_append_elim _ _ v t cc hb with hb | hb | ⟨rfl, hb⟩
    · exact hb
    · rw [grantEvt_mem_map] at hb
      exact absurd hb.2 (hnogrant v cc t)
    · rw [candEvt_mem_map] at hb
      exact absurd hb.2 (hnocand t)
  refine ⟨?_, ?_, ?_, ?_, ?_, ?_, ?_, ?_, ?_, ?_, ?_, ?_, ?_, ?_, ?_⟩
  -- wf_id
  · intro v hv
    dsimp only [applyNode] at hv ⊢
    rw [hup v]
    split_ifs with hvi
    · subst hvi; rw [hid]; exact h.wf_id v hv
    · exact h.wf_id v hv
  -- wf_cnt
  · intro v hv
    dsimp only [applyNode] at hv ⊢
    rw [hup v]
    split_ifs with hvi
    · subst hvi; rw [hcnt]; exact h.wf_cnt v hv
    · exact h.wf_cnt v hv
  -- net_src
  · intro m hm
    dsimp only [applyNode] at hm ⊢
    rcases List.mem_append.mp hm with hm | hm
    · exact h.net_src m hm
    · rw [hsrc m hm]; exact hi
  -- ballot_term
  · intro v t cc hb
    dsimp only [applyNode] at hb ⊢
    rw [hup v]
    have hb' := hnoballots v t cc hb
    split_ifs with hvi
    · subst hvi; exact hbt t cc hb'
    · exact h.ballot_term v t cc hb'
  -- ballot_unique
  · intro v t c₁ c₂ h₁ h₂
    dsimp only [applyNode] at h₁ h₂
    exact h.ballot_unique v t c₁ c₂ (hnoballots v t c₁ h₁) (hnoballots v t c₂ h₂)
  -- cand_once
  · intro cc t
    dsimp only [applyNode]
    unfold candCount candEvt
    rw [count_trace_add_state]
    have hz : evs.count (Event.state_change .candidate t) = 0 :=
      List.count_eq_zero.mpr (hnocand t)
    have := h.cand_once cc t
    unfold candCount candEvt at this
    split_ifs <;> omega
  -- req_self
  · intro cc t
    dsimp only [applyNode]
    unfold sentReqCount reqEvt
    have hx := count_trace_add_sent c.trace evs i hsrc (Msg.requestVote cc cc t)
    dsimp [Msg.src] at hx
    rw [hx]
    have hz : evs.count (Event.message_sent (Msg.requestVote cc cc t)) = 0 :=
      List.count_eq_zero.mpr (hnoreq cc cc t)
    have := h.req_self cc t
    unfold sentReqCount reqEvt at this
    omega
  -- req_le_cand
  · intro cc v t
    dsimp only [applyNode]
    unfold sentReqCount reqEvt candCount candEvt
    have hx := count_trace_add_sent c.trace evs i hsrc (Msg.requestVote cc v t)
    dsimp [Msg.src] at hx
    rw [hx, count_trace_add_state]
    have hz : evs.count (Event.message_sent (Msg.requestVote cc v t)) = 0 :=
      List.count_eq_zero.mpr (hnoreq cc v t)
    have := h.req_le_cand cc v t
    unfold sentReqCount reqEvt candCount candEvt at this
    split_ifs <;> omega
  -- req_conserve
  · intro cc v t
    dsimp only [applyNode]
    unfold netReqCount sentReqCount reqEvt deliveredReqCount
    have hx := count_trace_add_sent c.trace evs i hsrc (Msg.requestVote cc v t)
    dsimp [Msg.src] at hx
    rw [hx, count_trace_add_delivered, List.count_append, count_sentMessages]
    have := h.req_conserve cc v t
    unfold netReqCount sentReqCount reqEvt deliveredReqCount at this
    omega
  -- granted_le_req
  · intro v cc t
    dsimp only [applyNode]
    unfold grantedSentCount grantEvt deliveredReqCount
    have hx := count_trace_add_sent c.trace evs i hsrc (Msg.voteResponse v cc t true)
    dsimp [Msg.src] at hx
    rw [hx, count_trace_add_delivered]
    have hz : evs.count (Event.message_sent (Msg.voteResponse v cc t true)) = 0 :=
      List.count_eq_zero.mpr (hnogrant v cc t)
    have := h.granted_le_req v cc t
    unfold grantedSentCount grantEvt deliveredReqCount at this
    omega
  -- granted_conserve
  · intro v cc t
    dsimp only [applyNode]
    unfold netGrantedCount grantedSentCount grantEvt deliveredGrantedCount
    have hx := count_trace_add_sent c.trace evs i hsrc (Msg.voteResponse v cc t true)
    dsimp [Msg.src] at hx
    rw [hx, count_trace_add_delivered, List.count_append, count_sentMessages]
    have := h.granted_conserve v cc t
    unfold netGrantedCount grantedSentCount grantEvt deliveredGrantedCount at this
    omega
  -- cand_event
  · intro v hv hst
    dsimp only [applyNode] at hv hst ⊢
    rw [hup v] at hst ⊢
    split_ifs at hst ⊢ with hvi
    · subst hvi
      rcases hcand hst with ⟨hst', hterm', _⟩
      rw [hterm']
      unfold candAt at *
      exact List.mem_append_left _ (h.cand_event v hv hst')
    · unfold candAt at *
      exact List.mem_append_left _ (h.cand_event v hv hst)
  -- votes_bound
  · intro v hv hst
    dsimp only [applyNode] at hv hst ⊢
    rw [hup v] at hst ⊢
    split_ifs at hst ⊢ with hvi
    · subst hvi
      rcases hcand hst with ⟨hst', hterm', hvotes'⟩
      rw [hterm', hvotes', supporters_append_node]
      exact h.votes_bound v hv hst'
    · rw [supporters_append_node]
      exact h.votes_bound v hv hst
  -- leaderEvt_bound
  · intro cc t hm
    dsimp only [applyNode] at hm ⊢
    rcases List.mem_append.mp hm with hm | hm
    · exact lt_of_lt_of_le (h.leaderEvt_bound cc t hm) (Nat.mul_le_mul_left 2 (ballots_card_mono ..))
    · rw [leaderEvt_mem_map] at hm
      exact absurd hm.2 (hnolead t)
  -- leader_evt
  · intro v hv hst
    dsimp only [applyNode] at hv hst ⊢
    rw [hup v] at hst ⊢
    split_ifs at hst ⊢ with hvi
    · subst hvi
      rcases hlead hst with ⟨hst', hterm'⟩
      rw [hterm']
      exact List.mem_append_left _ (h.leader_evt v hv hst')
    · exact List.mem_append_left _ (h.leader_evt v hv hst)

/-- `fail_node` (i.e. `simulate_failure`) preserves the invariant. -/
theorem inv_fail_step (c : Cluster) (i : Nat) (hi : i < c.node_count) (h : ClusterInv c) :
    ClusterInv (applyNode c i (simulate_failure (c.nodes i))) := by
  refine inv_neutral_update c i hi _ _ h rfl rfl ?_ ?_ ?_ ?_ ?_ ?_ ?_ ?_
  · intro m hm
    simp [simulate_failure, sentMessages] at hm
  · intro t
    simp [simulate_failure]
  · intro t
    simp [simulate_failure]
  · intro s d t
    simp [simulate_failure]
  · intro s d t
    simp [simulate_failure]
  · intro t cc hb
    exact h.ballot_term i t cc hb
  · intro hst
    exact ⟨hst, rfl, rfl⟩
  · intro hst
    exact ⟨hst, rfl⟩

/-- `restore_node` preserves the invariant (both the no-op branch and the
resume-with-incremented-term branch). -/
theorem inv_restore_step (c : Cluster) (i : Nat) (hi : i < c.node_count) (now : ℚ)
    (h : ClusterInv c) :
    ClusterInv (applyNode c i (restore (c.nodes i) now)) := by
  by_cases hrun : (c.nodes i).running
  · have he : restore (c.nodes i) now = (c.nodes i, []) := by
      simp [restore, hrun]
    rw [he]
    refine inv_neutral_update c i hi _ _ h rfl rfl ?_ ?_ ?_ ?_ ?_ ?_ ?_ ?_
    · intro m hm
      simp [sentMessages] at hm
    · intro t
      simp
    · intro t
      simp
    · intro s d t
      simp
    · intro s d t
      simp
    · intro t cc hb
      exact h.ballot_term i t cc hb
    · intro hst
      exact ⟨hst, rfl, rfl⟩
    · intro hst
      exact ⟨hst, rfl⟩
  · have he : restore (c.nodes i) now =
        ({ (c.nodes i) with
            running := true
            state := NodeState.follower
            current_term := (c.nodes i).current_term + 1
            voted_for := none
            last_heartbeat := now - (c.nodes i).election_timeout - 1 },
         [Event.node_restore (c.nodes i).id]) := by
      simp [restore, hrun]
    rw [he]
    refine inv_neutral_update c i hi _ _ h rfl rfl ?_ ?_ ?_ ?_ ?_ ?_ ?_ ?_
    · intro m hm
      simp [sentMessages] at hm
    · intro t
      simp
    · intro t
      simp
    · intro s d t
      simp
    · intro s d t
      simp
    · intro t cc hb
      have hb' := h.ballot_term i t cc hb
      have hle : t ≤ (c.nodes i).current_term := hb'.1
      refine ⟨le_trans hle (Nat.le_succ _), fun heq => ?_⟩
      have heq' : t = (c.nodes i).current_term + 1 := heq
      omega
    · intro hst
      simp at hst
    · intro hst
      simp at hst

/-- A leader's heartbeat tick preserves the invariant: it publishes only
`heartbeat`-typed payloads, which no counter matches. -/
theorem inv_heartbeat_step (c : Cluster) (i : Nat) (hi : i < c.node_count) (h : ClusterInv c) :
    ClusterInv (applyNode c i (send_heartbeats (c.nodes i))) := by
  refine inv_neutral_update c i hi _ _ h rfl rfl ?_ ?_ ?_ ?_ ?_ ?_ ?_ ?_
  · intro m hm
    rw [sentMessages_map_sent] at hm
    simp only [List.mem_map] at hm
    rcases hm with ⟨j, _, rfl⟩
    exact h.wf_id i hi
  · intro t
    simp [send_heartbeats]
  · intro t
    simp [send_heartbeats]
  · intro s d t
    simp [send_heartbeats]
  · intro s d t
    simp [send_heartbeats]
  · intro t cc hb
    exact h.ballot_term i t cc hb
  · intro hst
    exact ⟨hst, rfl, rfl⟩
  · intro hst
    exact ⟨hst, rfl⟩

/-- Supporter sets grow with the trace. -/
theorem supporters_card_mono (E F : List TraceEntry) (c t N : Nat) :
    (supporters E c t N).card ≤ (supporters (E ++ F) c t N).card := by
  apply Finset.card_le_card
  intro v hv
  rw [supporters, Finset.mem_filter] at hv ⊢
  refine ⟨hv.1, ?_⟩
  have := hv.2
  unfold deliveredGrantedCount at this ⊢
  rw [List.count_append]
  omega

/-- Splitting the head off a buffer count. -/
theorem count_head (m₀ : Msg) (rest : List Msg) (p : Msg) :
    (m₀ :: rest).count p = rest.count p + (if m₀ = p then 1 else 0) := by
  rw [List.count_cons]
  by_cases h : m₀ = p
  · simp [h]
  · have h' : ¬p = m₀ := fun hc => h hc.symm
    simp [h, h']

/-- Splitting the head off an event count. -/
theorem count_head_event (e₀ : Event) (rest : List Event) (p : Event) :
    (e₀ :: rest).count p = rest.count p + (if e₀ = p then 1 else 0) := by
  rw [List.count_cons]
  by_cases h : e₀ = p
  · simp [h]
  · have h' : ¬p = e₀ := fun hc => h hc.symm
    simp [h, h']

/-- Counting a `delivered` pattern in a full deliver-step trace extension. -/
theorem count_delivered_full (E : List TraceEntry) (evs : List Event) (i : Nat) (m₀ p : Msg) :
    (E ++ evs.map (TraceEntry.node i) ++ [TraceEntry.delivered m₀]).count (TraceEntry.delivered p)
      = E.count (TraceEntry.delivered p) + (if m₀ = p then 1 else 0) := by
  rw [List.count_append, List.count_append, count_trace_map_delivered, List.count_singleton']
  simp only [TraceEntry.delivered.injEq]
  split_ifs <;> omega

/-- Counting a sender-stamped send pattern in a full deliver-step trace
extension. -/
theorem count_node_sent_full (E : List TraceEntry) (evs : List Event) (i : Nat) (m₀ m : Msg)
    (hsrc : ∀ m' ∈ sentMessages evs, m'.src = i) :
    (E ++ evs.map (TraceEntry.node i) ++ [TraceEntry.delivered m₀]).count
        (TraceEntry.node m.src (Event.message_sent m))
      = E.count (TraceEntry.node m.src (Event.message_sent m))
          + evs.count (Event.message_sent m) := by
  rw [List.count_append, count_trace_add_sent E evs i hsrc m, List.count_singleton']
  simp

/-- Counting a `state_change` pattern in a full deliver-step trace
extension. -/
theorem count_node_state_full (E : List TraceEntry) (evs : List Event) (i c : Nat)
    (st : NodeState) (t : Nat) (m₀ : Msg) :
    (E ++ evs.map (TraceEntry.node i) ++ [TraceEntry.delivered m₀]).count
        (TraceEntry.node c (Event.state_change st t))
      = E.count (TraceEntry.node c (Event.state_change st t))
          + (if c = i then evs.count (Event.state_change st t) else 0) := by
  rw [List.count_append, count_trace_add_state, List.count_singleton']
  simp

/-- Counting in the buffer after draining the head and appending the newly
published payloads. -/
theorem count_buffer_full (rest : List Msg) (evs : List Event) (p : Msg) :
    (rest ++ sentMessages evs).count p = rest.count p + evs.count (Event.message_sent p) := by
  rw [List.count_append, count_sentMessages]

/-- Preservation of the invariant under delivery of the buffer head when the
handler publishes no candidate/leader transitions, no `RequestVote` sends and
no granted `VoteResponse`s, and preserves the ballot relation and the
candidate/leader bookkeeping of the destination node. -/
theorem inv_deliver_neutral (c : Cluster) (m₀ : Msg) (rest : List Msg)
    (hbuf : c.message_buffer = m₀ :: rest) (hd : m₀.dst < c.node_count)
    (n' : Node) (evs : List Event) (h : ClusterInv c)
    (hid : n'.id = (c.nodes m₀.dst).id)
    (hcnt : n'.nodes_count = (c.nodes m₀.dst).nodes_count)
    (hsrc : ∀ m ∈ sentMessages evs, m.src = m₀.dst)
    (hnocand : ∀ t, Event.state_change .candidate t ∉ evs)
    (hnolead : ∀ t, Event.state_change .leader t ∉ evs)
    (hnoreq : ∀ s d t, Event.message_sent (Msg.requestVote s d t) ∉ evs)
    (hnogrant : ∀ s d t, Event.message_sent (Msg.voteResponse s d t true) ∉ evs)
    (hbt : ∀ t cc, castBallot c.trace m₀.dst t cc →
        t ≤ n'.current_term ∧ (t = n'.current_term → n'.voted_for = some cc))
    (hcand : n'.state = NodeState.candidate →
        (c.nodes m₀.dst).state = NodeState.candidate
          ∧ n'.current_term = (c.nodes m₀.dst).current_term
          ∧ n'.votes_received = (c.nodes m₀.dst).votes_received)
    (hlead : n'.state = NodeState.leader →
        (c.nodes m₀.dst).state = NodeState.leader
          ∧ n'.current_term = (c.nodes m₀.dst).current_term) :
    ClusterInv
      { c with
          nodes := Function.update c.nodes m₀.dst n'
          message_buffer := rest ++ sentMessages evs
          trace := c.trace ++ evs.map (TraceEntry.node m₀.dst) ++ [TraceEntry.delivered m₀] } := by
  have hup : ∀ v, Function.update c.nodes m₀.dst n' v =
      (if v = m₀.dst then n' else c.nodes v) := fun v => Function.update_apply ..
  have hnoballots : ∀ v t cc,
      castBallot (c.trace ++ evs.map (TraceEntry.node m₀.dst) ++ [TraceEntry.delivered m₀]) v t cc →
      castBallot c.trace v t cc := by
    intro v t cc hb
    rcases castBallot_append_elim _ _ v t cc hb with hb | hb | ⟨rfl, hb⟩
    · rcases castBallot_append_elim _ _ v t cc hb with hb | hb | ⟨rfl, hb⟩
      · exact hb
      · rw [grantEvt_mem_map] at hb
        exact absurd hb.2 (hnogrant v cc t)
      · rw [candEvt_mem_map] at hb
        exact absurd hb.2 (hnocand t)
    · simp [grantEvt] at hb
    · simp [candEvt] at hb
  refine ⟨?_, ?_, ?_, ?_, ?_, ?_, ?_, ?_, ?_, ?_, ?_, ?_, ?_, ?_, ?_⟩
  -- wf_id
  · intro v hv
    dsimp only at hv ⊢
    rw [hup v]
    split_ifs with hvi
    · rw [hid, hvi]
      exact h.wf_id m₀.dst (hvi ▸ hv)
    · exact h.wf_id v hv
  -- wf_cnt
  · intro v hv
    dsimp only at hv ⊢
    rw [hup v]
    split_ifs with hvi
    · rw [hcnt]
      exact h.wf_cnt m₀.dst (hvi ▸ hv)
    · exact h.wf_cnt v hv
  -- net_src
  · intro m hm
    dsimp only at hm ⊢
    rcases List.mem_append.mp hm with hm | hm
    · exact h.net_src m (by rw [hbuf]; exact List.mem_cons_of_mem _ hm)
    · rw [hsrc m hm]; exact hd
  -- ballot_term
  · intro v t cc hb
    dsimp only at hb ⊢
    rw [hup v]
    have hb' := hnoballots v t cc hb
    split_ifs with hvi
    · exact hbt t cc (hvi ▸ hb')
    · exact h.ballot_term v t cc hb'
  -- ballot_unique
  · intro v t c₁ c₂ h₁ h₂
    dsimp only at h₁ h₂
    exact h.ballot_unique v t c₁ c₂ (hnoballots v t c₁ h₁) (hnoballots v t c₂ h₂)
  -- cand_once
  · intro cc t
    dsimp only
    unfold candCount candEvt
    rw [count_node_state_full]
    have hz : evs.count (Event.state_change .candidate t) = 0 :=
      List.count_eq_zero.mpr (hnocand t)
    have := h.cand_once cc t
    unfold candCount candEvt at this
    split_ifs <;> omega
  -- req_self
  · intro cc t
    dsimp only
    unfold sentReqCount reqEvt
    have hx := count_node_sent_full c.trace evs m₀.dst m₀ (Msg.requestVote cc cc t) hsrc
    dsimp [Msg.src] at hx
    rw [hx]
    have hz : evs.count (Event.message_sent (Msg.requestVote cc cc t)) = 0 :=
      List.count_eq_zero.mpr (hnoreq cc cc t)
    have := h.req_self cc t
    unfold sentReqCount reqEvt at this
    omega
  -- req_le_cand
  · intro cc v t
    dsimp only
    unfold sentReqCount reqEvt candCount candEvt
    have hx := count_node_sent_full c.trace evs m₀.dst m₀ (Msg.requestVote cc v t) hsrc
    dsimp [Msg.src] at hx
    rw [hx, count_node_state_full]
    have hz : evs.count (Event.message_sent (Msg.requestVote cc v t)) = 0 :=
      List.count_eq_zero.mpr (hnoreq cc v t)
    have := h.req_le_cand cc v t
    unfold sentReqCount reqEvt candCount candEvt at this
    split_ifs <;> omega
  -- req_conserve
  · intro cc v t
    dsimp only
    unfold netReqCount sentReqCount reqEvt deliveredReqCount
    have hx := count_node_sent_full c.trace evs m₀.dst m₀ (Msg.requestVote cc v t) hsrc
    dsimp [Msg.src] at hx
    rw [hx, count_buffer_full, count_delivered_full]
    have hz : evs.count (Event.message_sent (Msg.requestVote cc v t)) = 0 :=
      List.count_eq_zero.mpr (hnoreq cc v t)
    have hpre := h.req_conserve cc v t
    rw [hbuf] at hpre
    unfold netReqCount sentReqCount reqEvt deliveredReqCount at hpre
    rw [count_head] at hpre
    split_ifs at hpre ⊢ <;> omega
  -- granted_le_req
  · intro v cc t
    dsimp only
    unfold grantedSentCount grantEvt deliveredReqCount
    have hx := count_node_sent_full c.trace evs m₀.dst m₀ (Msg.voteResponse v cc t true) hsrc
    dsimp [Msg.src] at hx
    rw [hx, count_delivered_full]
    have hz : evs.count (Event.message_sent (Msg.voteResponse v cc t true)) = 0 :=
      List.count_eq_zero.mpr (hnogrant v cc t)
    have := h.granted_le_req v cc t
    unfold grantedSentCount grantEvt deliveredReqCount at this
    split_ifs <;> omega
  -- granted_conserve
  · intro v cc t
    dsimp only
    unfold netGrantedCount grantedSentCount grantEvt deliveredGrantedCount
    have hx := count_node_sent_full c.trace evs m₀.dst m₀ (Msg.voteResponse v cc t true) hsrc
    dsimp [Msg.src] at hx
    rw [hx, count_buffer_full, count_delivered_full]
    have hz : evs.count (Event.message_sent (Msg.voteResponse v cc t true)) = 0 :=
      List.count_eq_zero.mpr (hnogrant v cc t)
    have hpre := h.granted_conserve v cc t
    rw [hbuf] at hpre
    unfold netGrantedCount grantedSentCount grantEvt deliveredGrantedCount at hpre
    rw [count_head] at hpre
    split_ifs at hpre ⊢ <;> omega
  -- cand_event
  · intro v hv hst
    dsimp only at hv hst ⊢
    rw [hup v] at hst ⊢
    unfold candAt
    split_ifs at hst ⊢ with hvi
    · rcases hcand hst with ⟨hst', hterm', _⟩
      rw [hterm', hvi]
      exact List.mem_append_left _ (List.mem_append_left _ (h.cand_event m₀.dst (hvi ▸ hv) hst'))
    · exact List.mem_append_left _ (List.mem_append_left _ (h.cand_event v hv hst))
  -- votes_bound
  · intro v hv hst
    dsimp only at hv hst ⊢
    rw [hup v] at hst ⊢
    split_ifs at hst ⊢ with hvi
    · rcases hcand hst with ⟨hst', hterm', hvotes'⟩
      rw [hterm', hvotes', hvi]
      have hmono := supporters_card_mono c.trace
        (evs.map (TraceEntry.node m₀.dst) ++ [TraceEntry.delivered m₀]) m₀.dst
        ((c.nodes m₀.dst).current_term) c.node_count
      rw [← List.append_assoc] at hmono
      have hb := h.votes_bound m₀.dst (hvi ▸ hv) hst'
      omega
    · have hmono := supporters_card_mono c.trace
        (evs.map (TraceEntry.node m₀.dst) ++ [TraceEntry.delivered m₀]) v
        ((c.nodes v).current_term) c.node_count
      rw [← List.append_assoc] at hmono
      have hb := h.votes_bound v hv hst
      omega
  -- leaderEvt_bound
  · intro cc t hm
    dsimp only at hm ⊢
    rcases List.mem_append.mp hm with hm | hm
    · rcases List.mem_append.mp hm with hm | hm
      · refine lt_of_lt_of_le (h.leaderEvt_bound cc t hm) (Nat.mul_le_mul_left 2 ?_)
        have hmono := ballots_card_mono c.trace
          (evs.map (TraceEntry.node m₀.dst) ++ [TraceEntry.delivered m₀]) cc t c.node_count
        rw [← List.append_assoc] at hmono
        exact hmono
      · rw [leaderEvt_mem_map] at hm
        exact absurd hm.2 (hnolead t)
    · simp [leaderEvt] at hm
  -- leader_evt
  · intro v hv hst
    dsimp only at hv hst ⊢
    rw [hup v] at hst ⊢
    split_ifs at hst ⊢ with hvi
    · rcases hlead hst with ⟨hst', hterm'⟩
      rw [hterm', hvi]
      exact List.mem_append_left _ (List.mem_append_left _ (h.leader_evt m₀.dst (hvi ▸ hv) hst'))
    · exact List.mem_append_left _ (List.mem_append_left _ (h.leader_evt v hv hst))

/-- Delivery of `RequestVote(s → d, t)` when `d`'s term is smaller: `d`
adopts `t`, becomes `Follower`, grants, and publishes the granted response. -/
theorem inv_deliver_adopt_grant (c : Cluster) (s d t : Nat) (rest : List Msg) (now : ℚ)
    (hbuf : c.message_buffer = Msg.requestVote s d t :: rest)
    (hd : d < c.node_count) (h : ClusterInv c)
    (hlt : (c.nodes d).current_term < t) :
    ClusterInv
      { c with
          nodes := Function.update c.nodes d
            { c.nodes d with
                current_term := t
                state := NodeState.follower
                voted_for := some s
                last_heartbeat := now
                message_queue := (c.nodes d).message_queue ++ [Msg.voteResponse d s t true] }
          message_buffer := rest ++ sentMessages
            [Event.state_change .follower t, Event.message_sent (Msg.voteResponse d s t true)]
          trace := c.trace ++ ([Event.state_change .follower t,
              Event.message_sent (Msg.voteResponse d s t true)].map (TraceEntry.node d))
            ++ [TraceEntry.delivered (Msg.requestVote s d t)] } := by
  have hup : ∀ v, Function.update c.nodes d
      { c.nodes d with
          current_term := t
          state := NodeState.follower
          voted_for := some s
          last_heartbeat := now
          message_queue := (c.nodes d).message_queue ++ [Msg.voteResponse d s t true] } v =
      (if v = d then
        { c.nodes d with
            current_term := t
            state := NodeState.follower
            voted_for := some s
            last_heartbeat := now
            message_queue := (c.nodes d).message_queue ++ [Msg.voteResponse d s t true] }
       else c.nodes v) := fun v => Function.update_apply ..
  have hsrc : ∀ m ∈ sentMessages
      [Event.state_change .follower t, Event.message_sent (Msg.voteResponse d s t true)],
      m.src = d := by
    intro m hm
    simp [sentMessages] at hm
    rw [hm]
    rfl
  have hballot_elim : ∀ v t' cc,
      castBallot (c.trace ++ ([Event.state_change .follower t,
          Event.message_sent (Msg.voteResponse d s t true)].map (TraceEntry.node d))
        ++ [TraceEntry.delivered (Msg.requestVote s d t)]) v t' cc →
      castBallot c.trace v t' cc ∨ (v = d ∧ cc = s ∧ t' = t) := by
    intro v t' cc hb
    rcases castBallot_append_elim _ _ v t' cc hb with hb | hb | ⟨rfl, hb⟩
    · rcases castBallot_append_elim _ _ v t' cc hb with hb | hb | ⟨rfl, hb⟩
      · exact Or.inl hb
      · rw [grantEvt_mem_map] at hb
        rcases hb with ⟨rfl, hmem⟩
        simp at hmem
        exact Or.inr ⟨rfl, hmem.1, hmem.2⟩
      · rw [candEvt_mem_map] at hb
        rcases hb with ⟨rfl, hmem⟩
        simp at hmem
    · simp [grantEvt] at hb
    · simp [candEvt] at hb
  refine ⟨?_, ?_, ?_, ?_, ?_, ?_, ?_, ?_, ?_, ?_, ?_, ?_, ?_, ?_, ?_⟩
  -- wf_id
  · intro v hv
    dsimp only at hv ⊢
    rw [hup v]
    split_ifs with hvi
    · rw [hvi]
      exact h.wf_id d hd
    · exact h.wf_id v hv
  -- wf_cnt
  · intro v hv
    dsimp only at hv ⊢
    rw [hup v]
    split_ifs with hvi
    · exact h.wf_cnt d hd
    · exact h.wf_cnt v hv
  -- net_src
  · intro m hm
    dsimp only at hm ⊢
    rcases List.mem_append.mp hm with hm | hm
    · exact h.net_src m (by rw [hbuf]; exact List.mem_cons_of_mem _ hm)
    · rw [hsrc m hm]
      exact hd
  -- ballot_term
  · intro v t' cc hb
    dsimp only at hb ⊢
    rw [hup v]
    rcases hballot_elim v t' cc hb with hb' | ⟨rfl, rfl, rfl⟩
    · split_ifs with hvi
      · have hbt := h.ballot_term d t' cc (hvi ▸ hb')
        refine ⟨le_of_lt (lt_of_le_of_lt hbt.1 hlt), fun heq' => ?_⟩
        exfalso
        have h1 : t' ≤ (c.nodes d).current_term := hbt.1
        have h2 : t' = t := heq'
        omega
      · exact h.ballot_term v t' cc hb'
    · split_ifs with hvi
      · exact ⟨le_refl _, fun _ => rfl⟩
      · exact absurd rfl hvi
  -- ballot_unique
  · intro v t' c₁ c₂ h₁ h₂
    dsimp only at h₁ h₂
    rcases hballot_elim v t' c₁ h₁ with hb₁ | ⟨hv1, hc1, ht1⟩
    · rcases hballot_elim v t' c₂ h₂ with hb₂ | ⟨hv2, hc2, ht2⟩
      · exact h.ballot_unique v t' c₁ c₂ hb₁ hb₂
      · exfalso
        have h1 := (h.ballot_term v t' c₁ hb₁).1
        rw [hv2] at h1
        omega
    · rcases hballot_elim v t' c₂ h₂ with hb₂ | ⟨hv2, hc2, ht2⟩
      · exfalso
        have h1 := (h.ballot_term v t' c₂ hb₂).1
        rw [hv1] at h1
        omega
      · rw [hc1, hc2]
  -- cand_once
  · intro cc t'
    dsimp only
    unfold candCount candEvt
    rw [count_node_state_full]
    have hz : List.count (Event.state_change NodeState.candidate t')
        [Event.state_change .follower t, Event.message_sent (Msg.voteResponse d s t true)] = 0 := by
      simp
    have := h.cand_once cc t'
    unfold candCount candEvt at this
    split_ifs <;> omega
  -- req_self
  · intro cc t'
    dsimp only
    unfold sentReqCount reqEvt
    have hx := count_node_sent_full c.trace
      [Event.state_change .follower t, Event.message_sent (Msg.voteResponse d s t true)] d
      (Msg.requestVote s d t) (Msg.requestVote cc cc t') hsrc
    dsimp only [Msg.src] at hx
    rw [hx]
    have hz : List.count (Event.message_sent (Msg.requestVote cc cc t'))
        [Event.state_change .follower t, Event.message_sent (Msg.voteResponse d s t true)] = 0 := by
      simp
    have := h.req_self cc t'
    unfold sentReqCount reqEvt at this
    omega
  -- req_le_cand
  · intro cc v t'
    dsimp only
    unfold sentReqCount reqEvt candCount candEvt
    have hx := count_node_sent_full c.trace
      [Event.state_change .follower t, Event.message_sent (Msg.voteResponse d s t true)] d
      (Msg.requestVote s d t) (Msg.requestVote cc v t') hsrc
    dsimp only [Msg.src] at hx
    rw [hx, count_node_state_full]
    have hz : List.count (Event.message_sent (Msg.requestVote cc v t'))
        [Event.state_change .follower t, Event.message_sent (Msg.voteResponse d s t true)] = 0 := by
      simp
    have hz2 : List.count (Event.state_change NodeState.candidate t')
        [Event.state_change .follower t, Event.message_sent (Msg.voteResponse d s t true)] = 0 := by
      simp
    have := h.req_le_cand cc v t'
    unfold sentReqCount reqEvt candCount candEvt at this
    split_ifs <;> omega
  -- req_conserve
  · intro cc v t'
    dsimp only
    unfold netReqCount sentReqCount reqEvt deliveredReqCount
    have hx := count_node_sent_full c.trace
      [Event.state_change .follower t, Event.message_sent (Msg.voteResponse d s t true)] d
      (Msg.requestVote s d t) (Msg.requestVote cc v t') hsrc
    dsimp only [Msg.src] at hx
    rw [hx, count_buffer_full, count_delivered_full]
    have hz : List.count (Event.message_sent (Msg.requestVote cc v t'))
        [Event.state_change .follower t, Event.message_sent (Msg.voteResponse d s t true)] = 0 := by
      simp
    have hpre := h.req_conserve cc v t'
    rw [hbuf] at hpre
    unfold netReqCount sentReqCount reqEvt deliveredReqCount at hpre
    rw [count_head] at hpre
    split_ifs at hpre ⊢ <;> omega
  -- granted_le_req
  · intro v cc t'
    dsimp only
    unfold grantedSentCount grantEvt deliveredReqCount
    have hx := count_node_sent_full c.trace
      [Event.state_change .follower t, Event.message_sent (Msg.voteResponse d s t true)] d
      (Msg.requestVote s d t) (Msg.voteResponse v cc t' true) hsrc
    dsimp only [Msg.src] at hx
    rw [hx, count_delivered_full]
    have hpre := h.granted_le_req v cc t'
    unfold grantedSentCount grantEvt deliveredReqCount at hpre
    by_cases hm : v = d ∧ cc = s ∧ t' = t
    · rcases hm with ⟨rfl, rfl, rfl⟩
      have hone : List.count (Event.message_sent (Msg.voteResponse v cc t' true))
          [Event.state_change .follower t', Event.message_sent (Msg.voteResponse v cc t' true)] = 1 := by
        simp
      rw [hone, if_pos rfl]
      omega
    · have hz : List.count (Event.message_sent (Msg.voteResponse v cc t' true))
          [Event.state_change .follower t, Event.message_sent (Msg.voteResponse d s t true)] = 0 := by
        refine List.count_eq_zero.mpr ?_
        intro hmem
        simp at hmem
        exact hm ⟨hmem.1, hmem.2.1, hmem.2.2⟩
      rw [hz]
      split_ifs <;> omega
  -- granted_conserve
  · intro v cc t'
    dsimp only
    unfold netGrantedCount grantedSentCount grantEvt deliveredGrantedCount
    have hx := count_node_sent_full c.trace
      [Event.state_change .follower t, Event.message_sent (Msg.voteResponse d s t true)] d
      (Msg.requestVote s d t) (Msg.voteResponse v cc t' true) hsrc
    dsimp only [Msg.src] at hx
    rw [hx, count_buffer_full, count_delivered_full]
    have hpre := h.granted_conserve v cc t'
    rw [hbuf] at hpre
    unfold netGrantedCount grantedSentCount grantEvt deliveredGrantedCount at hpre
    rw [count_head] at hpre
    split_ifs at hpre ⊢ <;> omega
  -- cand_event
  · intro v hv hst
    dsimp only at hv hst ⊢
    rw [hup v] at hst ⊢
    unfold candAt
    split_ifs at hst ⊢ with hvi
    exact List.mem_append_left _ (List.mem_append_left _ (h.cand_event v hv hst))
  -- votes_bound
  · intro v hv hst
    dsimp only at hv hst ⊢
    rw [hup v] at hst ⊢
    split_ifs at hst ⊢ with hvi
    have hmono := supporters_card_mono c.trace
        (([Event.state_change .follower t,
            Event.message_sent (Msg.voteResponse d s t true)].map (TraceEntry.node d))
          ++ [TraceEntry.delivered (Msg.requestVote s d t)]) v
        ((c.nodes v).current_term) c.node_count
    rw [← List.append_assoc] at hmono
    have hb := h.votes_bound v hv hst
    omega
  -- leaderEvt_bound
  · intro cc t' hm
    dsimp only at hm ⊢
    rcases List.mem_append.mp hm with hm | hm
    · rcases List.mem_append.mp hm with hm | hm
      · refine lt_of_lt_of_le (h.leaderEvt_bound cc t' hm) (Nat.mul_le_mul_left 2 ?_)
        have hmono := ballots_card_mono c.trace
          (([Event.state_change .follower t,
              Event.message_sent (Msg.voteResponse d s t true)].map (TraceEntry.node d))
            ++ [TraceEntry.delivered (Msg.requestVote s d t)]) cc t' c.node_count
        rw [← List.append_assoc] at hmono
        exact hmono
      · rw [leaderEvt_mem_map] at hm
        simp at hm
    · simp [leaderEvt] at hm
  -- leader_evt
  · intro v hv hst
    dsimp only at hv hst ⊢
    rw [hup v] at hst ⊢
    split_ifs at hst ⊢ with hvi
    exact List.mem_append_left _ (List.mem_append_left _ (h.leader_evt v hv hst))

/-- Delivery of `RequestVote(s → d, t)` at `d`'s own term when `d` can still
vote for `s`: `d` grants and publishes the granted response. -/
theorem inv_deliver_grant_same (c : Cluster) (s d t : Nat) (rest : List Msg) (now : ℚ)
    (hbuf : c.message_buffer = Msg.requestVote s d t :: rest)
    (hd : d < c.node_count) (h : ClusterInv c)
    (heq : (c.nodes d).current_term = t)
    (hvf : (c.nodes d).voted_for = none ∨ (c.nodes d).voted_for = some s) :
    ClusterInv
      { c with
          nodes := Function.update c.nodes d
            { c.nodes d with
                voted_for := some s
                last_heartbeat := now
                message_queue := (c.nodes d).message_queue ++ [Msg.voteResponse d s t true] }
          message_buffer := rest ++ sentMessages [Event.message_sent (Msg.voteResponse d s t true)]
          trace := c.trace ++ ([Event.message_sent (Msg.voteResponse d s t true)].map (TraceEntry.node d))
            ++ [TraceEntry.delivered (Msg.requestVote s d t)] } := by
  have hup : ∀ v, Function.update c.nodes d
      { c.nodes d with
          voted_for := some s
          last_heartbeat := now
          message_queue := (c.nodes d).message_queue ++ [Msg.voteResponse d s t true] } v =
      (if v = d then
        { c.nodes d with
            voted_for := some s
            last_heartbeat := now
            message_queue := (c.nodes d).message_queue ++ [Msg.voteResponse d s t true] }
       else c.nodes v) := fun v => Function.update_apply ..
  have hsrc : ∀ m ∈ sentMessages [Event.message_sent (Msg.voteResponse d s t true)],
      m.src = d := by
    intro m hm
    simp [sentMessages] at hm
    rw [hm]
    rfl
  have hballot_elim : ∀ v t' cc,
      castBallot (c.trace ++ ([Event.message_sent (Msg.voteResponse d s t true)].map (TraceEntry.node d))
        ++ [TraceEntry.delivered (Msg.requestVote s d t)]) v t' cc →
      castBallot c.trace v t' cc ∨ (v = d ∧ cc = s ∧ t' = t) := by
    intro v t' cc hb
    rcases castBallot_append_elim _ _ v t' cc hb with hb | hb | ⟨rfl, hb⟩
    · rcases castBallot_append_elim _ _ v t' cc hb with hb | hb | ⟨rfl, hb⟩
      · exact Or.inl hb
      · rw [grantEvt_mem_map] at hb
        rcases hb with ⟨rfl, hmem⟩
        simp at hmem
        exact Or.inr ⟨rfl, hmem.1, hmem.2⟩
      · rw [candEvt_mem_map] at hb
        rcases hb with ⟨rfl, hmem⟩
        simp at hmem
    · simp [grantEvt] at hb
    · simp [candEvt] at hb
  refine ⟨?_, ?_, ?_, ?_, ?_, ?_, ?_, ?_, ?_, ?_, ?_, ?_, ?_, ?_, ?_⟩
  -- wf_id
  · intro v hv
    dsimp only at hv ⊢
    rw [hup v]
    split_ifs with hvi
    · rw [hvi]
      exact h.wf_id d hd
    · exact h.wf_id v hv
  -- wf_cnt
  · intro v hv
    dsimp only at hv ⊢
    rw [hup v]
    split_ifs with hvi
    · exact h.wf_cnt d hd
    · exact h.wf_cnt v hv
  -- net_src
  · intro m hm
    dsimp only at hm ⊢
    rcases List.mem_append.mp hm with hm | hm
    · exact h.net_src m (by rw [hbuf]; exact List.mem_cons_of_mem _ hm)
    · rw [hsrc m hm]
      exact hd
  -- ballot_term
  · intro v t' cc hb
    dsimp only at hb ⊢
    rw [hup v]
    rcases hballot_elim v t' cc hb with hb' | ⟨hv1, hc1, ht1⟩
    · split_ifs with hvi
      · have hbt := h.ballot_term d t' cc (hvi ▸ hb')
        refine ⟨hbt.1, fun heq' => ?_⟩
        have heq2 : t' = (c.nodes d).current_term := heq'
        have hvoted := hbt.2 heq2
        rcases hvf with hv0 | hv0
        · rw [hv0] at hvoted
          cases hvoted
        · rw [hv0] at hvoted
          show some s = some cc
          rw [← hvoted]
      · exact h.ballot_term v t' cc hb'
    · split_ifs
      constructor
      · show t' ≤ (c.nodes d).current_term
        omega
      · intro _
        show some s = some cc
        rw [hc1]
  -- ballot_unique
  · intro v t' c₁ c₂ h₁ h₂
    dsimp only at h₁ h₂
    rcases hballot_elim v t' c₁ h₁ with hb₁ | ⟨hv1, hc1, ht1⟩
    · rcases hballot_elim v t' c₂ h₂ with hb₂ | ⟨hv2, hc2, ht2⟩
      · exact h.ballot_unique v t' c₁ c₂ hb₁ hb₂
      · have hbt := h.ballot_term v t' c₁ hb₁
        rw [hv2] at hbt
        have hvoted := hbt.2 (by omega)
        rcases hvf with hv0 | hv0
        · rw [hv0] at hvoted
          cases hvoted
        · rw [hv0] at hvoted
          rw [hc2]
          exact (Option.some_inj.mp hvoted).symm
    · rcases hballot_elim v t' c₂ h₂ with hb₂ | ⟨hv2, hc2, ht2⟩
      · have hbt := h.ballot_term v t' c₂ hb₂
        rw [hv1] at hbt
        have hvoted := hbt.2 (by omega)
        rcases hvf with hv0 | hv0
        · rw [hv0] at hvoted
          cases hvoted
        · rw [hv0] at hvoted
          rw [hc1]
          exact Option.some_inj.mp hvoted
      · rw [hc1, hc2]
  -- cand_once
  · intro cc t'
    dsimp only
    unfold candCount candEvt
    rw [count_node_state_full]
    have hz : List.count (Event.state_change NodeState.candidate t')
        [Event.message_sent (Msg.voteResponse d s t true)] = 0 := by
      simp
    have := h.cand_once cc t'
    unfold candCount candEvt at this
    split_ifs <;> omega
  -- req_self
  · intro cc t'
    dsimp only
    unfold sentReqCount reqEvt
    have hx := count_node_sent_full c.trace
      [Event.message_sent (Msg.voteResponse d s t true)] d
      (Msg.requestVote s d t) (Msg.requestVote cc cc t') hsrc
    dsimp only [Msg.src] at hx
    rw [hx]
    have hz : List.count (Event.message_sent (Msg.requestVote cc cc t'))
        [Event.message_sent (Msg.voteResponse d s t true)] = 0 := by
      simp
    have := h.req_self cc t'
    unfold sentReqCount reqEvt at this
    omega
  -- req_le_cand
  · intro cc v t'
    dsimp only
    unfold sentReqCount reqEvt candCount candEvt
    have hx := count_node_sent_full c.trace
      [Event.message_sent (Msg.voteResponse d s t true)] d
      (Msg.requestVote s d t) (Msg.requestVote cc v t') hsrc
    dsimp only [Msg.src] at hx
    rw [hx, count_node_state_full]
    have hz : List.count (Event.message_sent (Msg.requestVote cc v t'))
        [Event.message_sent (Msg.voteResponse d s t true)] = 0 := by
      simp
    have hz2 : List.count (Event.state_change NodeState.candidate t')
        [Event.message_sent (Msg.voteResponse d s t true)] = 0 := by
      simp
    have := h.req_le_cand cc v t'
    unfold sentReqCount reqEvt candCount candEvt at this
    split_ifs <;> omega
  -- req_conserve
  · intro cc v t'
    dsimp only
    unfold netReqCount sentReqCount reqEvt deliveredReqCount
    have hx := count_node_sent_full c.trace
      [Event.message_sent (Msg.voteResponse d s t true)] d
      (Msg.requestVote s d t) (Msg.requestVote cc v t') hsrc
    dsimp only [Msg.src] at hx
    rw [hx, count_buffer_full, count_delivered_full]
    have hz : List.count (Event.message_sent (Msg.requestVote cc v t'))
        [Event.message_sent (Msg.voteResponse d s t true)] = 0 := by
      simp
    have hpre := h.req_conserve cc v t'
    rw [hbuf] at hpre
    unfold netReqCount sentReqCount reqEvt deliveredReqCount at hpre
    rw [count_head] at hpre
    split_ifs at hpre ⊢ <;> omega
  -- granted_le_req
  · intro v cc t'
    dsimp only
    unfold grantedSentCount grantEvt deliveredReqCount
    have hx := count_node_sent_full c.trace
      [Event.message_sent (Msg.voteResponse d s t true)] d
      (Msg.requestVote s d t) (Msg.voteResponse v cc t' true) hsrc
    dsimp only [Msg.src] at hx
    rw [hx, count_delivered_full]
    have hpre := h.granted_le_req v cc t'
    unfold grantedSentCount grantEvt deliveredReqCount at hpre
    by_cases hm : v = d ∧ cc = s ∧ t' = t
    · rcases hm with ⟨rfl, rfl, rfl⟩
      have hone : List.count (Event.message_sent (Msg.voteResponse v cc t' true))
          [Event.message_sent (Msg.voteResponse v cc t' true)] = 1 := by
        simp
      rw [hone, if_pos rfl]
      omega
    · have hz : List.count (Event.message_sent (Msg.voteResponse v cc t' true))
          [Event.message_sent (Msg.voteResponse d s t true)] = 0 := by
        refine List.count_eq_zero.mpr ?_
        intro hmem
        simp at hmem
        exact hm ⟨hmem.1, hmem.2.1, hmem.2.2⟩
      rw [hz]
      split_ifs <;> omega
  -- granted_conserve
  · intro v cc t'
    dsimp only
    unfold netGrantedCount grantedSentCount grantEvt deliveredGrantedCount
    have hx := count_node_sent_full c.trace
      [Event.message_sent (Msg.voteResponse d s t true)] d
      (Msg.requestVote s d t) (Msg.voteResponse v cc t' true) hsrc
    dsimp only [Msg.src] at hx
    rw [hx, count_buffer_full, count_delivered_full]
    have hpre := h.granted_conserve v cc t'
    rw [hbuf] at hpre
    unfold netGrantedCount grantedSentCount grantEvt deliveredGrantedCount at hpre
    rw [count_head] at hpre
    split_ifs at hpre ⊢ <;> omega
  -- cand_event
  · intro v hv hst
    dsimp only at hv hst ⊢
    rw [hup v] at hst ⊢
    unfold candAt
    split_ifs at hst ⊢ with hvi
    · rw [hvi]
      dsimp only at hst ⊢
      exact List.mem_append_left _ (List.mem_append_left _ (h.cand_event d hd hst))
    · exact List.mem_append_left _ (List.mem_append_left _ (h.cand_event v hv hst))
  -- votes_bound
  · intro v hv hst
    dsimp only at hv hst ⊢
    rw [hup v] at hst ⊢
    split_ifs at hst ⊢ with hvi
    · rw [hvi]
      dsimp only at hst ⊢
      have hmono := supporters_card_mono c.trace
        (([Event.message_sent (Msg.voteResponse d s t true)].map (TraceEntry.node d))
          ++ [TraceEntry.delivered (Msg.requestVote s d t)]) d
        ((c.nodes d).current_term) c.node_count
      rw [← List.append_assoc] at hmono
      have hb := h.votes_bound d hd hst
      omega
    · have hmono := supporters_card_mono c.trace
        (([Event.message_sent (Msg.voteResponse d s t true)].map (TraceEntry.node d))
          ++ [TraceEntry.delivered (Msg.requestVote s d t)]) v
        ((c.nodes v).current_term) c.node_count
      rw [← List.append_assoc] at hmono
      have hb := h.votes_bound v hv hst
      omega
  -- leaderEvt_bound
  · intro cc t' hm
    dsimp only at hm ⊢
    rcases List.mem_append.mp hm with hm | hm
    · rcases List.mem_append.mp hm with hm | hm
      · refine lt_of_lt_of_le (h.leaderEvt_bound cc t' hm) (Nat.mul_le_mul_left 2 ?_)
        have hmono := ballots_card_mono c.trace
          (([Event.message_sent (Msg.voteResponse d s t true)].map (TraceEntry.node d))
            ++ [TraceEntry.delivered (Msg.requestVote s d t)]) cc t' c.node_count
        rw [← List.append_assoc] at hmono
        exact hmono
      · rw [leaderEvt_mem_map] at hm
        simp at hm
    · simp [leaderEvt] at hm
  -- leader_evt
  · intro v hv hst
    dsimp only at hv hst ⊢
    rw [hup v] at hst ⊢
    split_ifs at hst ⊢ with hvi
    · rw [hvi]
      dsimp only at hst ⊢
      exact List.mem_append_left _ (List.mem_append_left _ (h.leader_evt d hd hst))
    · exact List.mem_append_left _ (List.mem_append_left _ (h.leader_evt v hv hst))

/-- Delivery of a granted `VoteResponse(s → d, t)` to candidate `d` at its own
term: the vote is counted; `s` becomes a fresh supporter (the counter chain
shows its granted response had not been delivered before). -/
theorem inv_deliver_count_nowin (c : Cluster) (s d t : Nat) (rest : List Msg)
    (hbuf : c.message_buffer = Msg.voteResponse s d t true :: rest)
    (hd : d < c.node_count) (h : ClusterInv c)
    (hst : (c.nodes d).state = NodeState.candidate)
    (ht : t = (c.nodes d).current_term) :
    ClusterInv
      { c with
          nodes := Function.update c.nodes d
            { c.nodes d with votes_received := (c.nodes d).votes_received + 1 }
          message_buffer := rest ++ sentMessages ([] : List Event)
          trace := c.trace ++ (([] : List Event).map (TraceEntry.node d))
            ++ [TraceEntry.delivered (Msg.voteResponse s d t true)] } := by
  have hup : ∀ v, Function.update c.nodes d
      { c.nodes d with votes_received := (c.nodes d).votes_received + 1 } v =
      (if v = d then { c.nodes d with votes_received := (c.nodes d).votes_received + 1 }
       else c.nodes v) := fun v => Function.update_apply ..
  have hsN : s < c.node_count :=
    h.net_src (Msg.voteResponse s d t true) (by rw [hbuf]; exact List.mem_cons_self _ _)
  have hnet1 : 1 ≤ netGrantedCount c.message_buffer s d t := by
    rw [hbuf]
    unfold netGrantedCount
    rw [List.count_cons_self]
    omega
  have hdelG0 : deliveredGrantedCount c.trace s d t = 0 := by
    have h1 := h.granted_conserve s d t
    have h2 := h.granted_le_req s d t
    have h3 := h.req_conserve d s t
    have h4 := h.req_le_cand d s t
    have h5 := h.cand_once d t
    omega
  have hgs1 : 1 ≤ grantedSentCount c.trace s d t := by
    have h1 := h.granted_conserve s d t
    omega
  have hsne : s ≠ d := by
    intro he
    have h2 := h.granted_le_req s d t
    have h3 := h.req_conserve d d t
    have h4 := h.req_self d t
    rw [he] at hgs1 h2
    omega
  have hsupp : supporters (c.trace ++ (([] : List Event).map (TraceEntry.node d))
      ++ [TraceEntry.delivered (Msg.voteResponse s d t true)]) d t c.node_count
      = insert s (supporters c.trace d t c.node_count) := by
    ext v
    simp only [supporters, Finset.mem_filter, Finset.mem_insert, Finset.mem_range]
    unfold deliveredGrantedCount
    rw [count_delivered_full]
    constructor
    · rintro ⟨hvN, hpos⟩
      by_cases hv : v = s
      · exact Or.inl hv
      · refine Or.inr ⟨hvN, ?_⟩
        have : ¬(Msg.voteResponse s d t true = Msg.voteResponse v d t true) := by
          intro hc
          injection hc with h1 _ _ _
          exact hv h1.symm
        rw [if_neg this] at hpos
        omega
    · rintro (rfl | ⟨hvN, hpos⟩)
      · refine ⟨hsN, ?_⟩
        rw [if_pos rfl]
        omega
      · refine ⟨hvN, ?_⟩
        split_ifs <;> omega
  have hnotmem : s ∉ supporters c.trace d t c.node_count := by
    simp only [supporters, Finset.mem_filter, Finset.mem_range]
    intro hc
    omega
  have hnoballots : ∀ v t' cc,
      castBallot (c.trace ++ (([] : List Event).map (TraceEntry.node d))
        ++ [TraceEntry.delivered (Msg.voteResponse s d t true)]) v t' cc →
      castBallot c.trace v t' cc := by
    intro v t' cc hb
    rcases castBallot_append_elim _ _ v t' cc hb with hb | hb | ⟨rfl, hb⟩
    · rcases castBallot_append_elim _ _ v t' cc hb with hb | hb | ⟨rfl, hb⟩
      · exact hb
      · simp at hb
      · simp at hb
    · simp [grantEvt] at hb
    · simp [candEvt] at hb
  refine ⟨?_, ?_, ?_, ?_, ?_, ?_, ?_, ?_, ?_, ?_, ?_, ?_, ?_, ?_, ?_⟩
  -- wf_id
  · intro v hv
    dsimp only at hv ⊢
    rw [hup v]
    split_ifs with hvi
    · rw [hvi]
      exact h.wf_id d hd
    · exact h.wf_id v hv
  -- wf_cnt
  · intro v hv
    dsimp only at hv ⊢
    rw [hup v]
    split_ifs with hvi
    · exact h.wf_cnt d hd
    · exact h.wf_cnt v hv
  -- net_src
  · intro m hm
    dsimp only at hm ⊢
    rcases List.mem_append.mp hm with hm | hm
    · exact h.net_src m (by rw [hbuf]; exact List.mem_cons_of_mem _ hm)
    · simp [sentMessages] at hm
  -- ballot_term
  · intro v t' cc hb
    dsimp only at hb ⊢
    rw [hup v]
    have hb' := hnoballots v t' cc hb
    split_ifs with hvi
    · exact h.ballot_term d t' cc (hvi ▸ hb')
    · exact h.ballot_term v t' cc hb'
  -- ballot_unique
  · intro v t' c₁ c₂ h₁ h₂
    dsimp only at h₁ h₂
    exact h.ballot_unique v t' c₁ c₂ (hnoballots v t' c₁ h₁) (hnoballots v t' c₂ h₂)
  -- cand_once
  · intro cc t'
    dsimp only
    unfold candCount candEvt
    rw [count_node_state_full]
    have := h.cand_once cc t'
    unfold candCount candEvt at this
    split_ifs <;> simp <;> omega
  -- req_self
  · intro cc t'
    dsimp only
    unfold sentReqCount reqEvt
    have hx := count_node_sent_full c.trace ([] : List Event) d
      (Msg.voteResponse s d t true) (Msg.requestVote cc cc t') (by intro m hm; simp [sentMessages] at hm)
    dsimp only [Msg.src] at hx
    rw [hx]
    have := h.req_self cc t'
    unfold sentReqCount reqEvt at this
    simp
    omega
  -- req_le_cand
  · intro cc v t'
    dsimp only
    unfold sentReqCount reqEvt candCount candEvt
    have hx := count_node_sent_full c.trace ([] : List Event) d
      (Msg.voteResponse s d t true) (Msg.requestVote cc v t') (by intro m hm; simp [sentMessages] at hm)
    dsimp only [Msg.src] at hx
    rw [hx, count_node_state_full]
    have := h.req_le_cand cc v t'
    unfold sentReqCount reqEvt candCount candEvt at this
    split_ifs <;> simp <;> omega
  -- req_conserve
  · intro cc v t'
    dsimp only
    unfold netReqCount sentReqCount reqEvt deliveredReqCount
    have hx := count_node_sent_full c.trace ([] : List Event) d
      (Msg.voteResponse s d t true) (Msg.requestVote cc v t') (by intro m hm; simp [sentMessages] at hm)
    dsimp only [Msg.src] at hx
    rw [hx, count_buffer_full, count_delivered_full]
    have hpre := h.req_conserve cc v t'
    rw [hbuf] at hpre
    unfold netReqCount sentReqCount reqEvt deliveredReqCount at hpre
    rw [count_head] at hpre
    split_ifs at hpre ⊢ <;> simp <;> omega
  -- granted_le_req
  · intro v cc t'
    dsimp only
    unfold grantedSentCount grantEvt deliveredReqCount
    have hx := count_node_sent_full c.trace ([] : List Event) d
      (Msg.voteResponse s d t true) (Msg.voteResponse v cc t' true) (by intro m hm; simp [sentMessages] at hm)
    dsimp only [Msg.src] at hx
    rw [hx, count_delivered_full]
    have := h.granted_le_req v cc t'
    unfold grantedSentCount grantEvt deliveredReqCount at this
    split_ifs <;> simp <;> omega
  -- granted_conserve
  · intro v cc t'
    dsimp only
    unfold netGrantedCount grantedSentCount grantEvt deliveredGrantedCount
    have hx := count_node_sent_full c.trace ([] : List Event) d
      (Msg.voteResponse s d t true) (Msg.voteResponse v cc t' true) (by intro m hm; simp [sentMessages] at hm)
    dsimp only [Msg.src] at hx
    rw [hx, count_buffer_full, count_delivered_full]
    have hpre := h.granted_conserve v cc t'
    rw [hbuf] at hpre
    unfold netGrantedCount grantedSentCount grantEvt deliveredGrantedCount at hpre
    rw [count_head] at hpre
    split_ifs at hpre ⊢ <;> simp <;> omega
  -- cand_event
  · intro v hv hst'
    dsimp only at hv hst' ⊢
    rw [hup v] at hst' ⊢
    unfold candAt
    split_ifs at hst' ⊢ with hvi
    · rw [hvi]
      dsimp only at hst' ⊢
      exact List.mem_append_left _ (List.mem_append_left _ (h.cand_event d hd hst'))
    · exact List.mem_append_left _ (List.mem_append_left _ (h.cand_event v hv hst'))
  -- votes_bound
  · intro v hv hst'
    dsimp only at hv hst' ⊢
    rw [hup v] at hst' ⊢
    split_ifs at hst' ⊢ with hvi
    · rw [hvi]
      dsimp only at hst' ⊢
      rw [← ht, hsupp, Finset.card_insert_of_not_mem hnotmem]
      have hb := h.votes_bound d hd hst'
      rw [← ht] at hb
      omega
    · have hmono := supporters_card_mono c.trace
        ((([] : List Event).map (TraceEntry.node d))
          ++ [TraceEntry.delivered (Msg.voteResponse s d t true)]) v
        ((c.nodes v).current_term) c.node_count
      rw [← List.append_assoc] at hmono
      have hb := h.votes_bound v hv hst'
      omega
  -- leaderEvt_bound
  · intro cc t' hm
    dsimp only at hm ⊢
    rcases List.mem_append.mp hm with hm | hm
    · rcases List.mem_append.mp hm with hm | hm
      · refine lt_of_lt_of_le (h.leaderEvt_bound cc t' hm) (Nat.mul_le_mul_left 2 ?_)
        have hmono := ballots_card_mono c.trace
          ((([] : List Event).map (TraceEntry.node d))
            ++ [TraceEntry.delivered (Msg.voteResponse s d t true)]) cc t' c.node_count
        rw [← List.append_assoc] at hmono
        exact hmono
      · simp at hm
    · simp [leaderEvt] at hm
  -- leader_evt
  · intro v hv hst'
    dsimp only at hv hst' ⊢
    rw [hup v] at hst' ⊢
    split_ifs at hst' ⊢ with hvi
    · exfalso
      dsimp only at hst'
      rw [hst] at hst'
      cases hst'
    · exact List.mem_append_left _ (List.mem_append_left _ (h.leader_evt v hv hst'))

/-- Delivery of a granted `VoteResponse(s → d, t)` that reaches a strict
majority: `d` becomes `Leader`, publishes the transition and a heartbeat
batch; the published leadership is backed by `> N/2` ballots: `d`'s own plus
one per distinct delivered supporter. -/
theorem inv_deliver_count_win (c : Cluster) (s d t : Nat) (rest : List Msg) (h : ClusterInv c)
    (hbuf : c.message_buffer = Msg.voteResponse s d t true :: rest)
    (hd : d < c.node_count)
    (hst : (c.nodes d).state = NodeState.candidate)
    (ht : t = (c.nodes d).current_term)
    (hmaj : c.node_count < 2 * ((c.nodes d).votes_received + 1)) :
    ClusterInv
      { c with
          nodes := Function.update c.nodes d
            { c.nodes d with
                state := NodeState.leader
                votes_received := (c.nodes d).votes_received + 1
                message_queue := (c.nodes d).message_queue
                  ++ (peers c.node_count d).map (fun j => Msg.appendEntries d j t) }
          message_buffer := rest ++ sentMessages
            (Event.state_change .leader t
              :: (peers c.node_count d).map (fun j => Event.message_sent (Msg.heartbeat d j t)))
          trace := c.trace ++ ((Event.state_change .leader t
              :: (peers c.node_count d).map (fun j => Event.message_sent (Msg.heartbeat d j t))).map
                (TraceEntry.node d))
            ++ [TraceEntry.delivered (Msg.voteResponse s d t true)] } := by
  have hup : ∀ v, Function.update c.nodes d
      { c.nodes d with
          state := NodeState.leader
          votes_received := (c.nodes d).votes_received + 1
          message_queue := (c.nodes d).message_queue
            ++ (peers c.node_count d).map (fun j => Msg.appendEntries d j t) } v =
      (if v = d then
        { c.nodes d with
            state := NodeState.leader
            votes_received := (c.nodes d).votes_received + 1
            message_queue := (c.nodes d).message_queue
              ++ (peers c.node_count d).map (fun j => Msg.appendEntries d j t) }
       else c.nodes v) := fun v => Function.update_apply ..
  have hsN : s < c.node_count :=
    h.net_src (Msg.voteResponse s d t true) (by rw [hbuf]; exact List.mem_cons_self _ _)
  have hnet1 : 1 ≤ netGrantedCount c.message_buffer s d t := by
    rw [hbuf]
    unfold netGrantedCount
    rw [List.count_cons_self]
    omega
  have hdelG0 : deliveredGrantedCount c.trace s d t = 0 := by
    have h1 := h.granted_conserve s d t
    have h2 := h.granted_le_req s d t
    have h3 := h.req_conserve d s t
    have h4 := h.req_le_cand d s t
    have h5 := h.cand_once d t
    omega
  have hgs1 : 1 ≤ grantedSentCount c.trace s d t := by
    have h1 := h.granted_conserve s d t
    omega
  have hsne : s ≠ d := by
    intro he
    have h2 := h.granted_le_req s d t
    have h3 := h.req_conserve d d t
    have h4 := h.req_self d t
    rw [he] at hgs1 h2
    omega
  have hsent_eq : sentMessages
      (Event.state_change .leader t
        :: (peers c.node_count d).map (fun j => Event.message_sent (Msg.heartbeat d j t)))
      = (peers c.node_count d).map (fun j => Msg.heartbeat d j t) :=
    sentMessages_map_sent _ _
  have hsrc : ∀ m ∈ sentMessages
      (Event.state_change .leader t
        :: (peers c.node_count d).map (fun j => Event.message_sent (Msg.heartbeat d j t))),
      m.src = d := by
    intro m hm
    rw [hsent_eq] at hm
    simp only [List.mem_map] at hm
    rcases hm with ⟨j, _, rfl⟩
    rfl
  have hsupp : supporters (c.trace ++ ((Event.state_change .leader t
      :: (peers c.node_count d).map (fun j => Event.message_sent (Msg.heartbeat d j t))).map
        (TraceEntry.node d))
      ++ [TraceEntry.delivered (Msg.voteResponse s d t true)]) d t c.node_count
      = insert s (supporters c.trace d t c.node_count) := by
    ext v
    simp only [supporters, Finset.mem_filter, Finset.mem_insert, Finset.mem_range]
    unfold deliveredGrantedCount
    rw [count_delivered_full]
    constructor
    · rintro ⟨hvN, hpos⟩
      by_cases hv : v = s
      · exact Or.inl hv
      · refine Or.inr ⟨hvN, ?_⟩
        have : ¬(Msg.voteResponse s d t true = Msg.voteResponse v d t true) := by
          intro hc
          injection hc with h1 _ _ _
          exact hv h1.symm
        rw [if_neg this] at hpos
        omega
    · rintro (rfl | ⟨hvN, hpos⟩)
      · refine ⟨hsN, ?_⟩
        rw [if_pos rfl]
        omega
      · refine ⟨hvN, ?_⟩
        split_ifs <;> omega
  have hnotmem : s ∉ supporters c.trace d t c.node_count := by
    simp only [supporters, Finset.mem_filter, Finset.mem_range]
    intro hc
    omega
  have hgrantMem : grantEvt s d t ∈ c.trace := by
    unfold grantedSentCount at hgs1
    exact List.count_pos_iff.mp hgs1
  have hballots_sub : insert d (insert s (supporters c.trace d t c.node_count)) ⊆
      ballots (c.trace ++ ((Event.state_change .leader t
        :: (peers c.node_count d).map (fun j => Event.message_sent (Msg.heartbeat d j t))).map
          (TraceEntry.node d))
        ++ [TraceEntry.delivered (Msg.voteResponse s d t true)]) d t c.node_count := by
    intro u hu
    rw [ballots, Finset.mem_filter, Finset.mem_range]
    rcases Finset.mem_insert.mp hu with rfl | hu2
    · refine ⟨hd, Or.inr ⟨rfl, ?_⟩⟩
      have hc := h.cand_event _ hd hst
      rw [← ht] at hc
      exact List.mem_append_left _ (List.mem_append_left _ hc)
    · rcases Finset.mem_insert.mp hu2 with rfl | hu3
      · exact ⟨hsN, Or.inl (List.mem_append_left _ (List.mem_append_left _ hgrantMem))⟩
      · have hu4 := Finset.mem_filter.mp hu3
        have hposs : 0 < deliveredGrantedCount c.trace u d t := hu4.2
        have hcons := h.granted_conserve u d t
        have hgsu : 0 < grantedSentCount c.trace u d t := by omega
        have hmemu : grantEvt u d t ∈ c.trace := by
          unfold grantedSentCount at hgsu
          exact List.count_pos_iff.mp hgsu
        exact ⟨Finset.mem_range.mp hu4.1,
          Or.inl (List.mem_append_left _ (List.mem_append_left _ hmemu))⟩
  have hdnotmem : d ∉ insert s (supporters c.trace d t c.node_count) := by
    rw [Finset.mem_insert]
    rintro (he | hmem)
    · exact hsne he.symm
    · have h4 := (Finset.mem_filter.mp hmem).2
      have h5 := h.granted_conserve d d t
      have h6 := h.granted_le_req d d t
      have h7 := h.req_conserve d d t
      have h8 := h.req_self d t
      omega
  have hcard : (c.nodes d).votes_received + 1 ≤
      (ballots (c.trace ++ ((Event.state_change .leader t
        :: (peers c.node_count d).map (fun j => Event.message_sent (Msg.heartbeat d j t))).map
          (TraceEntry.node d))
        ++ [TraceEntry.delivered (Msg.voteResponse s d t true)]) d t c.node_count).card := by
    have hb := h.votes_bound d hd hst
    rw [← ht] at hb
    have hc1 : (insert d (insert s (supporters c.trace d t c.node_count))).card
        = (supporters c.trace d t c.node_count).card + 2 := by
      rw [Finset.card_insert_of_not_mem hdnotmem, Finset.card_insert_of_not_mem hnotmem]
    have hc2 := Finset.card_le_card hballots_sub
    omega
  have hnoballots : ∀ v t' cc,
      castBallot (c.trace ++ ((Event.state_change .leader t
        :: (peers c.node_count d).map (fun j => Event.message_sent (Msg.heartbeat d j t))).map
          (TraceEntry.node d))
        ++ [TraceEntry.delivered (Msg.voteResponse s d t true)]) v t' cc →
      castBallot c.trace v t' cc := by
    intro v t' cc hb
    rcases castBallot_append_elim _ _ v t' cc hb with hb | hb | ⟨rfl, hb⟩
    · rcases castBallot_append_elim _ _ v t' cc hb with hb | hb | ⟨rfl, hb⟩
      · exact hb
      · rw [grantEvt_mem_map] at hb
        rcases hb with ⟨rfl, hmem⟩
        simp at hmem
      · rw [candEvt_mem_map] at hb
        rcases hb with ⟨rfl, hmem⟩
        simp at hmem
    · simp [grantEvt] at hb
    · simp [candEvt] at hb
  refine ⟨?_, ?_, ?_, ?_, ?_, ?_, ?_, ?_, ?_, ?_, ?_, ?_, ?_, ?_, ?_⟩
  -- wf_id
  · intro v hv
    dsimp only at hv ⊢
    rw [hup v]
    split_ifs with hvi
    · rw [hvi]
      exact h.wf_id d hd
    · exact h.wf_id v hv
  -- wf_cnt
  · intro v hv
    dsimp only at hv ⊢
    rw [hup v]
    split_ifs with hvi
    · exact h.wf_cnt d hd
    · exact h.wf_cnt v hv
  -- net_src
  · intro m hm
    dsimp only at hm ⊢
    rcases List.mem_append.mp hm with hm | hm
    · exact h.net_src m (by rw [hbuf]; exact List.mem_cons_of_mem _ hm)
    · rw [hsrc m hm]
      exact hd
  -- ballot_term
  · intro v t' cc hb
    dsimp only at hb ⊢
    rw [hup v]
    have hb' := hnoballots v t' cc hb
    split_ifs with hvi
    · exact h.ballot_term d t' cc (hvi ▸ hb')
    · exact h.ballot_term v t' cc hb'
  -- ballot_unique
  · intro v t' c₁ c₂ h₁ h₂
    dsimp only at h₁ h₂
    exact h.ballot_unique v t' c₁ c₂ (hnoballots v t' c₁ h₁) (hnoballots v t' c₂ h₂)
  -- cand_once
  · intro cc t'
    dsimp only
    unfold candCount candEvt
    rw [count_node_state_full]
    have hz : List.count (Event.state_change NodeState.candidate t')
        (Event.state_change .leader t
          :: (peers c.node_count d).map (fun j => Event.message_sent (Msg.heartbeat d j t))) = 0 := by
      refine List.count_eq_zero.mpr ?_
      simp
    have := h.cand_once cc t'
    unfold candCount candEvt at this
    split_ifs <;> omega
  -- req_self
  · intro cc t'
    dsimp only
    unfold sentReqCount reqEvt
    have hx := count_node_sent_full c.trace
      (Event.state_change .leader t
        :: (peers c.node_count d).map (fun j => Event.message_sent (Msg.heartbeat d j t))) d
      (Msg.voteResponse s d t true) (Msg.requestVote cc cc t') hsrc
    dsimp only [Msg.src] at hx
    rw [hx]
    have hz : List.count (Event.message_sent (Msg.requestVote cc cc t'))
        (Event.state_change .leader t
          :: (peers c.node_count d).map (fun j => Event.message_sent (Msg.heartbeat d j t))) = 0 := by
      refine List.count_eq_zero.mpr ?_
      simp
    have := h.req_self cc t'
    unfold sentReqCount reqEvt at this
    omega
  -- req_le_cand
  · intro cc v t'
    dsimp only
    unfold sentReqCount reqEvt candCount candEvt
    have hx := count_node_sent_full c.trace
      (Event.state_change .leader t
        :: (peers c.node_count d).map (fun j => Event.message_sent (Msg.heartbeat d j t))) d
      (Msg.voteResponse s d t true) (Msg.requestVote cc v t') hsrc
    dsimp only [Msg.src] at hx
    rw [hx, count_node_state_full]
    have hz : List.count (Event.message_sent (Msg.requestVote cc v t'))
        (Event.state_change .leader t
          :: (peers c.node_count d).map (fun j => Event.message_sent (Msg.heartbeat d j t))) = 0 := by
      refine List.count_eq_zero.mpr ?_
      simp
    have hz2 : List.count (Event.state_change NodeState.candidate t')
        (Event.state_change .leader t
          :: (peers c.node_count d).map (fun j => Event.message_sent (Msg.heartbeat d j t))) = 0 := by
      refine List.count_eq_zero.mpr ?_
      simp
    have := h.req_le_cand cc v t'
    unfold sentReqCount reqEvt candCount candEvt at this
    split_ifs <;> omega
  -- req_conserve
  · intro cc v t'
    dsimp only
    unfold netReqCount sentReqCount reqEvt deliveredReqCount
    have hx := count_node_sent_full c.trace
      (Event.state_change .leader t
        :: (peers c.node_count d).map (fun j => Event.message_sent (Msg.heartbeat d j t))) d
      (Msg.voteResponse s d t true) (Msg.requestVote cc v t') hsrc
    dsimp only [Msg.src] at hx
    rw [hx, count_buffer_full, count_delivered_full]
    have hz : List.count (Event.message_sent (Msg.requestVote cc v t'))
        (Event.state_change .leader t
          :: (peers c.node_count d).map (fun j => Event.message_sent (Msg.heartbeat d j t))) = 0 := by
      refine List.count_eq_zero.mpr ?_
      simp
    have hpre := h.req_conserve cc v t'
    rw [hbuf] at hpre
    unfold netReqCount sentReqCount reqEvt deliveredReqCount at hpre
    rw [count_head] at hpre
    split_ifs at hpre ⊢ <;> omega
  -- granted_le_req
  · intro v cc t'
    dsimp only
    unfold grantedSentCount grantEvt deliveredReqCount
    have hx := count_node_sent_full c.trace
      (Event.state_change .leader t
        :: (peers c.node_count d).map (fun j => Event.message_sent (Msg.heartbeat d j t))) d
      (Msg.voteResponse s d t true) (Msg.voteResponse v cc t' true) hsrc
    dsimp only [Msg.src] at hx
    rw [hx, count_delivered_full]
    have hz : List.count (Event.message_sent (Msg.voteResponse v cc t' true))
        (Event.state_change .leader t
          :: (peers c.node_count d).map (fun j => Event.message_sent (Msg.heartbeat d j t))) = 0 := by
      refine List.count_eq_zero.mpr ?_
      simp
    have := h.granted_le_req v cc t'
    unfold grantedSentCount grantEvt deliveredReqCount at this
    split_ifs <;> omega
  -- granted_conserve
  · intro v cc t'
    dsimp only
    unfold netGrantedCount grantedSentCount grantEvt deliveredGrantedCount
    have hx := count_node_sent_full c.trace
      (Event.state_change .leader t
        :: (peers c.node_count d).map (fun j => Event.message_sent (Msg.heartbeat d j t))) d
      (Msg.voteResponse s d t true) (Msg.voteResponse v cc t' true) hsrc
    dsimp only [Msg.src] at hx
    rw [hx, count_buffer_full, count_delivered_full]
    have hz : List.count (Event.message_sent (Msg.voteResponse v cc t' true))
        (Event.state_change .leader t
          :: (peers c.node_count d).map (fun j => Event.message_sent (Msg.heartbeat d j t))) = 0 := by
      refine List.count_eq_zero.mpr ?_
      simp
    have hpre := h.granted_conserve v cc t'
    rw [hbuf] at hpre
    unfold netGrantedCount grantedSentCount grantEvt deliveredGrantedCount at hpre
    rw [count_head] at hpre
    split_ifs at hpre ⊢ <;> omega
  -- cand_event
  · intro v hv hst'
    dsimp only at hv hst' ⊢
    rw [hup v] at hst' ⊢
    unfold candAt
    split_ifs at hst' ⊢ with hvi
    exact List.mem_append_left _ (List.mem_append_left _ (h.cand_event v hv hst'))
  -- votes_bound
  · intro v hv hst'
    dsimp only at hv hst' ⊢
    rw [hup v] at hst' ⊢
    split_ifs at hst' ⊢ with hvi
    have hmono := supporters_card_mono c.trace
      (((Event.state_change .leader t
          :: (peers c.node_count d).map (fun j => Event.message_sent (Msg.heartbeat d j t))).map
            (TraceEntry.node d))
        ++ [TraceEntry.delivered (Msg.voteResponse s d t true)]) v
      ((c.nodes v).current_term) c.node_count
    rw [← List.append_assoc] at hmono
    have hb := h.votes_bound v hv hst'
    omega
  -- leaderEvt_bound
  · intro cc t' hm
    dsimp only at hm ⊢
    rcases List.mem_append.mp hm with hm | hm
    · rcases List.mem_append.mp hm with hm | hm
      · refine lt_of_lt_of_le (h.leaderEvt_bound cc t' hm) (Nat.mul_le_mul_left 2 ?_)
        have hmono := ballots_card_mono c.trace
          (((Event.state_change .leader t
              :: (peers c.node_count d).map (fun j => Event.message_sent (Msg.heartbeat d j t))).map
                (TraceEntry.node d))
            ++ [TraceEntry.delivered (Msg.voteResponse s d t true)]) cc t' c.node_count
        rw [← List.append_assoc] at hmono
        exact hmono
      · rw [leaderEvt_mem_map] at hm
        rcases hm with ⟨rfl, hmem⟩
        simp at hmem
        rw [hmem]
        omega
    · simp [leaderEvt] at hm
  -- leader_evt
  · intro v hv hst'
    dsimp only at hv hst' ⊢
    rw [hup v] at hst' ⊢
    split_ifs at hst' ⊢ with hvi
    · rw [hvi]
      dsimp only
      rw [← ht]
      have hhead : TraceEntry.node d (Event.state_change .leader t) ∈
          ((Event.state_change .leader t
            :: (peers c.node_count d).map (fun j => Event.message_sent (Msg.heartbeat d j t))).map
              (TraceEntry.node d)) := by
        simp
      exact List.mem_append_left _ (List.mem_append_right _ hhead)
    · exact List.mem_append_left _ (List.mem_append_left _ (h.leader_evt v hv hst'))

theorem inv_election_step (c : Cluster) (i : Nat) (now : ℚ) (r : Nat)
    (hi : i < c.node_count) (h : ClusterInv c) :
    ClusterInv
      { c with
          nodes := Function.update c.nodes i
            { c.nodes i with
                state := NodeState.candidate
                current_term := (c.nodes i).current_term + 1
                voted_for := some i
                votes_received := 1
                election_timeout := reset_election_timeout r
                last_heartbeat := now
                message_queue := (c.nodes i).message_queue ++ (peers c.node_count i).map
                  (fun j => Msg.requestVote i j ((c.nodes i).current_term + 1)) }
          message_buffer := c.message_buffer ++ sentMessages
            (Event.state_change .candidate ((c.nodes i).current_term + 1)
              :: (peers c.node_count i).map
                (fun j => Event.message_sent (Msg.requestVote i j ((c.nodes i).current_term + 1))))
          trace := c.trace ++ (Event.state_change .candidate ((c.nodes i).current_term + 1)
              :: (peers c.node_count i).map
                (fun j => Event.message_sent (Msg.requestVote i j ((c.nodes i).current_term + 1)))).map
            (TraceEntry.node i) } := by
  have hup : ∀ v, Function.update c.nodes i
      { c.nodes i with
          state := NodeState.candidate
          current_term := (c.nodes i).current_term + 1
          voted_for := some i
          votes_received := 1
          election_timeout := reset_election_timeout r
          last_heartbeat := now
          message_queue := (c.nodes i).message_queue ++ (peers c.node_count i).map
            (fun j => Msg.requestVote i j ((c.nodes i).current_term + 1)) } v =
      (if v = i then
        { c.nodes i with
            state := NodeState.candidate
            current_term := (c.nodes i).current_term + 1
            voted_for := some i
            votes_received := 1
            election_timeout := reset_election_timeout r
            last_heartbeat := now
            message_queue := (c.nodes i).message_queue ++ (peers c.node_count i).map
              (fun j => Msg.requestVote i j ((c.nodes i).current_term + 1)) }
       else c.nodes v) := fun v => Function.update_apply ..
  have hsent_eq : sentMessages
      (Event.state_change .candidate ((c.nodes i).current_term + 1)
        :: (peers c.node_count i).map
          (fun j => Event.message_sent (Msg.requestVote i j ((c.nodes i).current_term + 1))))
      = (peers c.node_count i).map (fun j => Msg.requestVote i j ((c.nodes i).current_term + 1)) :=
    sentMessages_map_sent _ _
  have hsrc : ∀ m ∈ sentMessages
      (Event.state_change .candidate ((c.nodes i).current_term + 1)
        :: (peers c.node_count i).map
          (fun j => Event.message_sent (Msg.requestVote i j ((c.nodes i).current_term + 1)))),
      m.src = i := by
    intro m hm
    rw [hsent_eq] at hm
    simp only [List.mem_map] at hm
    rcases hm with ⟨j, _, rfl⟩
    rfl
  have hcand0 : candCount c.trace i ((c.nodes i).current_term + 1) = 0 := by
    refine List.count_eq_zero.mpr (fun hc => ?_)
    have := (h.ballot_term i ((c.nodes i).current_term + 1) i (Or.inr ⟨rfl, hc⟩)).1
    omega
  have hreq0 : ∀ v, sentReqCount c.trace i v ((c.nodes i).current_term + 1) = 0 := by
    intro v
    have h1 := h.req_le_cand i v ((c.nodes i).current_term + 1)
    omega
  have hballot_elim : ∀ v t' cc,
      castBallot (c.trace ++ (Event.state_change .candidate ((c.nodes i).current_term + 1)
          :: (peers c.node_count i).map
            (fun j => Event.message_sent (Msg.requestVote i j ((c.nodes i).current_term + 1)))).map
          (TraceEntry.node i)) v t' cc →
      castBallot c.trace v t' cc ∨ (v = i ∧ cc = i ∧ t' = (c.nodes i).current_term + 1) := by
    intro v t' cc hb
    rcases castBallot_append_elim _ _ v t' cc hb with hb | hb | ⟨rfl, hb⟩
    · exact Or.inl hb
    · rw [grantEvt_mem_map] at hb
      rcases hb with ⟨rfl, hmem⟩
      simp at hmem
    · rw [candEvt_mem_map] at hb
      rcases hb with ⟨rfl, hmem⟩
      simp at hmem
      exact Or.inr ⟨rfl, rfl, hmem⟩
  refine ⟨?_, ?_, ?_, ?_, ?_, ?_, ?_, ?_, ?_, ?_, ?_, ?_, ?_, ?_, ?_⟩
  -- wf_id
  · intro v hv
    dsimp only at hv ⊢
    rw [hup v]
    split_ifs with hvi
    · rw [hvi]
      exact h.wf_id i hi
    · exact h.wf_id v hv
  -- wf_cnt
  · intro v hv
    dsimp only at hv ⊢
    rw [hup v]
    split_ifs with hvi
    · exact h.wf_cnt i hi
    · exact h.wf_cnt v hv
  -- net_src
  · intro m hm
    dsimp only at hm ⊢
    rcases List.mem_append.mp hm with hm | hm
    · exact h.net_src m hm
    · rw [hsrc m hm]
      exact hi
  -- ballot_term
  · intro v t' cc hb
    dsimp only at hb ⊢
    rw [hup v]
    rcases hballot_elim v t' cc hb with hb' | ⟨hv1, hc1, ht1⟩
    · split_ifs with hvi
      · have hbt := h.ballot_term i t' cc (hvi ▸ hb')
        refine ⟨?_, fun heq' => ?_⟩
        · show t' ≤ (c.nodes i).current_term + 1
          omega
        · exfalso
          have h1 : t' ≤ (c.nodes i).current_term := hbt.1
          have h2 : t' = (c.nodes i).current_term + 1 := heq'
          omega
      · exact h.ballot_term v t' cc hb'
    · split_ifs
      constructor
      · show t' ≤ (c.nodes i).current_term + 1
        omega
      · intro _
        show some i = some cc
        rw [hc1]
  -- ballot_unique
  · intro v t' c₁ c₂ h₁ h₂
    dsimp only at h₁ h₂
    rcases hballot_elim v t' c₁ h₁ with hb₁ | ⟨hv1, hc1, ht1⟩
    · rcases hballot_elim v t' c₂ h₂ with hb₂ | ⟨hv2, hc2, ht2⟩
      · exact h.ballot_unique v t' c₁ c₂ hb₁ hb₂
      · exfalso
        have h1 := (h.ballot_term v t' c₁ hb₁).1
        rw [hv2] at h1
        omega
    · rcases hballot_elim v t' c₂ h₂ with hb₂ | ⟨hv2, hc2, ht2⟩
      · exfalso
        have h1 := (h.ballot_term v t' c₂ hb₂).1
        rw [hv1] at h1
        omega
      · rw [hc1, hc2]
  -- cand_once
  · intro cc t'
    dsimp only
    unfold candCount candEvt
    rw [count_trace_add_state]
    have hmap0 : List.count (Event.state_change NodeState.candidate t')
        ((peers c.node_count i).map
          (fun j => Event.message_sent (Msg.requestVote i j ((c.nodes i).current_term + 1)))) = 0 :=
      count_map_zero _ _ _ (by intro a; simp)
    have hcnt : List.count (Event.state_change NodeState.candidate t')
        (Event.state_change .candidate ((c.nodes i).current_term + 1)
          :: (peers c.node_count i).map
            (fun j => Event.message_sent (Msg.requestVote i j ((c.nodes i).current_term + 1)))) =
        if t' = (c.nodes i).current_term + 1 then 1 else 0 := by
      rw [count_head_event, hmap0]
      by_cases hh : t' = (c.nodes i).current_term + 1
      · subst hh
        simp
      · rw [if_neg (by simp; omega), if_neg hh]
    rw [hcnt]
    have hpre := h.cand_once cc t'
    unfold candCount candEvt at hpre
    have hc0 := hcand0
    unfold candCount candEvt at hc0
    by_cases hcc : cc = i
    · rw [hcc, if_pos rfl]
      rw [hcc] at hpre
      by_cases ht' : t' = (c.nodes i).current_term + 1
      · rw [ht', if_pos rfl]
        rw [ht'] at hpre
        omega
      · rw [if_neg ht']
        omega
    · rw [if_neg hcc]
      omega
  -- req_self
  · intro cc t'
    dsimp only
    unfold sentReqCount reqEvt
    have hx := count_trace_add_sent c.trace _ i hsrc (Msg.requestVote cc cc t')
    dsimp only [Msg.src] at hx
    rw [hx]
    have hz : List.count (Event.message_sent (Msg.requestVote cc cc t'))
        (Event.state_change .candidate ((c.nodes i).current_term + 1)
          :: (peers c.node_count i).map
            (fun j => Event.message_sent (Msg.requestVote i j ((c.nodes i).current_term + 1)))) =
        if cc = i ∧ t' = (c.nodes i).current_term + 1 then (peers c.node_count i).count cc else 0 := by
      rw [List.count_cons, count_map_event_sent, count_map_reqVote]
      simp
    rw [hz]
    have hpeers := count_peers c.node_count i cc
    have := h.req_self cc t'
    unfold sentReqCount reqEvt at this
    split_ifs at hz ⊢ with hmm
    · rw [hpeers]
      rcases hmm with ⟨rfl, _⟩
      simp
      omega
    · omega
  -- req_le_cand
  · intro cc v t'
    dsimp only
    unfold sentReqCount reqEvt candCount candEvt
    have hx := count_trace_add_sent c.trace _ i hsrc (Msg.requestVote cc v t')
    dsimp only [Msg.src] at hx
    rw [hx, count_trace_add_state]
    have hz : List.count (Event.message_sent (Msg.requestVote cc v t'))
        (Event.state_change .candidate ((c.nodes i).current_term + 1)
          :: (peers c.node_count i).map
            (fun j => Event.message_sent (Msg.requestVote i j ((c.nodes i).current_term + 1)))) =
        if cc = i ∧ t' = (c.nodes i).current_term + 1 then (peers c.node_count i).count v else 0 := by
      rw [List.count_cons, count_map_event_sent, count_map_reqVote]
      simp
    rw [hz]
    have hcnt : List.count (Event.state_change NodeState.candidate t')
        (Event.state_change .candidate ((c.nodes i).current_term + 1)
          :: (peers c.node_count i).map
            (fun j => Event.message_sent (Msg.requestVote i j ((c.nodes i).current_term + 1)))) =
        if t' = (c.nodes i).current_term + 1 then 1 else 0 := by
      have hmap0 : List.count (Event.state_change NodeState.candidate t')
          ((peers c.node_count i).map
            (fun j => Event.message_sent (Msg.requestVote i j ((c.nodes i).current_term + 1)))) = 0 :=
        count_map_zero _ _ _ (by intro a; simp)
      rw [count_head_event, hmap0]
      by_cases hh : t' = (c.nodes i).current_term + 1
      · subst hh
        simp
      · rw [if_neg (by simp; omega), if_neg hh]
    have hcp := count_peers c.node_count i v
    have hpre1 := h.req_le_cand cc v t'
    unfold sentReqCount reqEvt candCount candEvt at hpre1
    by_cases hcc : cc = i ∧ t' = (c.nodes i).current_term + 1
    · rw [if_pos hcc, hcnt]
      rcases hcc with ⟨rfl, rfl⟩
      rw [if_pos rfl, if_pos rfl]
      have hr0 := hreq0 v
      unfold sentReqCount reqEvt at hr0
      rw [hcp]
      split_ifs <;> omega
    · rw [if_neg hcc, hcnt]
      split_ifs <;> omega
  -- req_conserve
  · intro cc v t'
    dsimp only
    unfold netReqCount sentReqCount reqEvt deliveredReqCount
    have hx := count_trace_add_sent c.trace _ i hsrc (Msg.requestVote cc v t')
    dsimp only [Msg.src] at hx
    rw [hx, List.count_append, count_sentMessages, count_trace_add_delivered]
    have hpre := h.req_conserve cc v t'
    unfold netReqCount sentReqCount reqEvt deliveredReqCount at hpre
    omega
  -- granted_le_req
  · intro v cc t'
    dsimp only
    unfold grantedSentCount grantEvt deliveredReqCount
    have hx := count_trace_add_sent c.trace _ i hsrc (Msg.voteResponse v cc t' true)
    dsimp only [Msg.src] at hx
    rw [hx, count_trace_add_delivered]
    have hz : List.count (Event.message_sent (Msg.voteResponse v cc t' true))
        (Event.state_change .candidate ((c.nodes i).current_term + 1)
          :: (peers c.node_count i).map
            (fun j => Event.message_sent (Msg.requestVote i j ((c.nodes i).current_term + 1)))) = 0 := by
      refine List.count_eq_zero.mpr ?_
      simp
    rw [hz]
    have := h.granted_le_req v cc t'
    unfold grantedSentCount grantEvt deliveredReqCount at this
    omega
  -- granted_conserve
  · intro v cc t'
    dsimp only
    unfold netGrantedCount grantedSentCount grantEvt deliveredGrantedCount
    have hx := count_trace_add_sent c.trace _ i hsrc (Msg.voteResponse v cc t' true)
    dsimp only [Msg.src] at hx
    rw [hx, List.count_append, count_sentMessages, count_trace_add_delivered]
    have hpre := h.granted_conserve v cc t'
    unfold netGrantedCount grantedSentCount grantEvt deliveredGrantedCount at hpre
    omega
  -- cand_event
  · intro v hv hst'
    dsimp only at hv hst' ⊢
    rw [hup v] at hst' ⊢
    unfold candAt
    split_ifs at hst' ⊢ with hvi
    · rw [hvi]
      dsimp only
      refine List.mem_append_right _ ?_
      simp [candEvt]
    · exact List.mem_append_left _ (h.cand_event v hv hst')
  -- votes_bound
  · intro v hv hst'
    dsimp only at hv hst' ⊢
    rw [hup v] at hst' ⊢
    split_ifs at hst' ⊢ with hvi
    · rw [hvi]
      dsimp only
      have hcard := Finset.card_le_card (Finset.empty_subset
        (supporters (c.trace ++ (Event.state_change .candidate ((c.nodes i).current_term + 1)
          :: (peers c.node_count i).map
            (fun j => Event.message_sent (Msg.requestVote i j ((c.nodes i).current_term + 1)))).map
          (TraceEntry.node i)) i ((c.nodes i).current_term + 1) c.node_count))
      omega
    · rw [supporters_append_node]
      exact h.votes_bound v hv hst'
  -- leaderEvt_bound
  · intro cc t' hm
    dsimp only at hm ⊢
    rcases List.mem_append.mp hm with hm | hm
    · exact lt_of_lt_of_le (h.leaderEvt_bound cc t' hm)
        (Nat.mul_le_mul_left 2 (ballots_card_mono c.trace _ cc t' c.node_count))
    · rw [leaderEvt_mem_map] at hm
      rcases hm with ⟨rfl, hmem⟩
      simp at hmem
  -- leader_evt
  · intro v hv hst'
    dsimp only at hv hst' ⊢
    rw [hup v] at hst' ⊢
    split_ifs at hst' ⊢ with hvi
    exact List.mem_append_left _ (h.leader_evt v hv hst')

/-- Delivering the head of the buffer preserves the invariant, whatever the
message type: dispatch over `receive_message` and the handler case analyses. -/
theorem inv_deliver_step (c : Cluster) (m : Msg) (rest : List Msg) (now : ℚ)
    (hbuf : c.message_buffer = m :: rest) (hd : m.dst < c.node_count) (h : ClusterInv c) :
    ClusterInv
      { c with
          nodes := Function.update c.nodes m.dst (receive_message (c.nodes m.dst) now m).1
          message_buffer := rest ++ sentMessages (receive_message (c.nodes m.dst) now m).2
          trace := c.trace ++ (receive_message (c.nodes m.dst) now m).2.map (TraceEntry.node m.dst)
            ++ [TraceEntry.delivered m] } := by
  cases m with
  | requestVote s d t =>
    simp only [Msg.dst] at hd ⊢
    have hrm : receive_message (c.nodes d) now (Msg.requestVote s d t)
        = handle_vote_request (c.nodes d) now t s := rfl
    rw [hrm]
    rcases hvr_cases (c.nodes d) now t s with ⟨hlt, he⟩ | ⟨heq, hvf, he⟩ | ⟨hnlt, hnc, he⟩
    · rw [he]
      have hpay : Msg.voteResponse (c.nodes d).id s t true = Msg.voteResponse d s t true := by
        rw [h.wf_id d hd]
      rw [hpay]
      exact inv_deliver_adopt_grant c s d t rest now hbuf hd h hlt
    · rw [he]
      have hpay : Msg.voteResponse (c.nodes d).id s (c.nodes d).current_term true
          = Msg.voteResponse d s t true := by
        rw [h.wf_id d hd, heq]
      rw [hpay]
      exact inv_deliver_grant_same c s d t rest now hbuf hd h heq hvf
    · rw [he]
      refine inv_deliver_neutral c (Msg.requestVote s d t) rest hbuf hd _ _ h rfl rfl
        ?_ ?_ ?_ ?_ ?_ ?_ ?_ ?_
      · intro m hm
        simp [sentMessages] at hm
        rw [hm]
        exact h.wf_id d hd
      · intro t'
        simp
      · intro t'
        simp
      · intro s' d' t'
        simp
      · intro s' d' t'
        simp
      · intro t' cc hb
        exact h.ballot_term d t' cc hb
      · intro hst
        exact ⟨hst, rfl, rfl⟩
      · intro hst
        exact ⟨hst, rfl⟩
  | voteResponse s d t g =>
    simp only [Msg.dst] at hd ⊢
    have hrm : receive_message (c.nodes d) now (Msg.voteResponse s d t g)
        = handle_vote_response (c.nodes d) t g := rfl
    rw [hrm]
    rcases hvresp_cases (c.nodes d) t g with ⟨hst, he⟩ | ⟨hst, hlt, he⟩
      | ⟨hst, hnlt, hg, hteq, hmaj, he⟩ | ⟨hst, hnlt, hg, hteq, hnmaj, he⟩ | ⟨hst, hnlt, hng, he⟩
    · rw [he]
      refine inv_deliver_neutral c (Msg.voteResponse s d t g) rest hbuf hd _ _ h rfl rfl
        ?_ ?_ ?_ ?_ ?_ ?_ ?_ ?_
      · intro m hm
        simp [sentMessages] at hm
      · intro t'
        simp
      · intro t'
        simp
      · intro s' d' t'
        simp
      · intro s' d' t'
        simp
      · intro t' cc hb
        exact h.ballot_term d t' cc hb
      · intro hst'
        exact ⟨hst', rfl, rfl⟩
      · intro hst'
        exact ⟨hst', rfl⟩
    · rw [he]
      refine inv_deliver_neutral c (Msg.voteResponse s d t g) rest hbuf hd _ _ h rfl rfl
        ?_ ?_ ?_ ?_ ?_ ?_ ?_ ?_
      · intro m hm
        simp [sentMessages] at hm
      · intro t'
        simp
      · intro t'
        simp
      · intro s' d' t'
        simp
      · intro s' d' t'
        simp
      · intro t' cc hb
        have hb' := h.ballot_term d t' cc hb
        have hle : t' ≤ (c.nodes d).current_term := hb'.1
        refine ⟨?_, fun heq' => ?_⟩
        · show t' ≤ t
          omega
        · exfalso
          have heq'' : t' = t := heq'
          omega
      · intro hst'
        simp at hst'
      · intro hst'
        simp at hst'
    · subst hg
      have hmaj' : c.node_count < 2 * ((c.nodes d).votes_received + 1) := by
        rw [← h.wf_cnt d hd]
        exact hmaj
      rw [he]
      have hq : (peers (c.nodes d).nodes_count (c.nodes d).id).map
            (fun j => Msg.appendEntries (c.nodes d).id j (c.nodes d).current_term)
          = (peers c.node_count d).map (fun j => Msg.appendEntries d j t) := by
        rw [h.wf_id d hd, h.wf_cnt d hd, ← hteq]
      have hw : (Event.state_change NodeState.leader (c.nodes d).current_term
            :: (peers (c.nodes d).nodes_count (c.nodes d).id).map
              (fun j => Event.message_sent (Msg.heartbeat (c.nodes d).id j (c.nodes d).current_term)))
          = (Event.state_change NodeState.leader t
            :: (peers c.node_count d).map (fun j => Event.message_sent (Msg.heartbeat d j t))) := by
        rw [h.wf_id d hd, h.wf_cnt d hd, ← hteq]
      rw [hq, hw]
      exact inv_deliver_count_win c s d t rest h hbuf hd hst hteq hmaj'
    · subst hg
      rw [he]
      exact inv_deliver_count_nowin c s d t rest hbuf hd h hst hteq
    · rw [he]
      refine inv_deliver_neutral c (Msg.voteResponse s d t g) rest hbuf hd _ _ h rfl rfl
        ?_ ?_ ?_ ?_ ?_ ?_ ?_ ?_
      · intro m hm
        simp [sentMessages] at hm
      · intro t'
        simp
      · intro t'
        simp
      · intro s' d' t'
        simp
      · intro s' d' t'
        simp
      · intro t' cc hb
        exact h.ballot_term d t' cc hb
      · intro hst'
        exact ⟨hst', rfl, rfl⟩
      · intro hst'
        exact ⟨hst', rfl⟩
  | appendEntries s d t =>
    simp only [Msg.dst] at hd ⊢
    have hrm : receive_message (c.nodes d) now (Msg.appendEntries s d t)
        = handle_append_entries (c.nodes d) now t s := rfl
    rw [hrm]
    rcases hae_cases (c.nodes d) now t s with ⟨hlt, he⟩ | ⟨hnlt, hle, hst, he⟩
      | ⟨hnlt, hle, hst, he⟩ | ⟨hgt, he⟩
    · rw [he]
      refine inv_deliver_neutral c (Msg.appendEntries s d t) rest hbuf hd _ _ h rfl rfl
        ?_ ?_ ?_ ?_ ?_ ?_ ?_ ?_
      · intro m hm
        simp [sentMessages] at hm
      · intro t'
        simp
      · intro t'
        simp
      · intro s' d' t'
        simp
      · intro s' d' t'
        simp
      · intro t' cc hb
        have hb' := h.ballot_term d t' cc hb
        have hle' : t' ≤ (c.nodes d).current_term := hb'.1
        refine ⟨?_, fun heq' => ?_⟩
        · show t' ≤ t
          omega
        · exfalso
          have heq'' : t' = t := heq'
          omega
      · intro hst'
        simp at hst'
      · intro hst'
        simp at hst'
    · rw [he]
      refine inv_deliver_neutral c (Msg.appendEntries s d t) rest hbuf hd _ _ h rfl rfl
        ?_ ?_ ?_ ?_ ?_ ?_ ?_ ?_
      · intro m hm
        simp [sentMessages] at hm
      · intro t'
        simp
      · intro t'
        simp
      · intro s' d' t'
        simp
      · intro s' d' t'
        simp
      · intro t' cc hb
        exact h.ballot_term d t' cc hb
      · intro hst'
        simp at hst'
      · intro hst'
        simp at hst'
    · rw [he]
      refine inv_deliver_neutral c (Msg.appendEntries s d t) rest hbuf hd _ _ h rfl rfl
        ?_ ?_ ?_ ?_ ?_ ?_ ?_ ?_
      · intro m hm
        simp [sentMessages] at hm
      · intro t'
        simp
      · intro t'
        simp
      · intro s' d' t'
        simp
      · intro s' d' t'
        simp
      · intro t' cc hb
        exact h.ballot_term d t' cc hb
      · intro hst'
        exact ⟨hst', rfl, rfl⟩
      · intro hst'
        exact ⟨hst', rfl⟩
    · rw [he]
      refine inv_deliver_neutral c (Msg.appendEntries s d t) rest hbuf hd _ _ h rfl rfl
        ?_ ?_ ?_ ?_ ?_ ?_ ?_ ?_
      · intro m hm
        simp [sentMessages] at hm
      · intro t'
        simp
      · intro t'
        simp
      · intro s' d' t'
        simp
      · intro s' d' t'
        simp
      · intro t' cc hb
        exact h.ballot_term d t' cc hb
      · intro hst'
        exact ⟨hst', rfl, rfl⟩
      · intro hst'
        exact ⟨hst', rfl⟩
  | heartbeat s d t =>
    simp only [Msg.dst] at hd ⊢
    have hrm : receive_message (c.nodes d) now (Msg.heartbeat s d t) = (c.nodes d, []) := rfl
    rw [hrm]
    refine inv_deliver_neutral c (Msg.heartbeat s d t) rest hbuf hd _ _ h rfl rfl
      ?_ ?_ ?_ ?_ ?_ ?_ ?_ ?_
    · intro m hm
      simp [sentMessages] at hm
    · intro t'
      simp
    · intro t'
      simp
    · intro s' d' t'
      simp
    · intro s' d' t'
      simp
    · intro t' cc hb
      exact h.ballot_term d t' cc hb
    · intro hst'
      exact ⟨hst', rfl, rfl⟩
    · intro hst'
      exact ⟨hst', rfl⟩
  | appendEntriesResponse s d t ok =>
    simp only [Msg.dst] at hd ⊢
    have hrm : receive_message (c.nodes d) now (Msg.appendEntriesResponse s d t ok)
        = (c.nodes d, []) := rfl
    rw [hrm]
    refine inv_deliver_neutral c (Msg.appendEntriesResponse s d t ok) rest hbuf hd _ _ h rfl rfl
      ?_ ?_ ?_ ?_ ?_ ?_ ?_ ?_
    · intro m hm
      simp [sentMessages] at hm
    · intro t'
      simp
    · intro t'
      simp
    · intro s' d' t'
      simp
    · intro s' d' t'
      simp
    · intro t' cc hb
      exact h.ballot_term d t' cc hb
    · intro hst'
      exact ⟨hst', rfl, rfl⟩
    · intro hst'
      exact ⟨hst', rfl⟩

/-- Every cluster step preserves the election-safety invariant. -/
theorem inv_step (c c' : Cluster) (hs : Step c c') (h : ClusterInv c) : ClusterInv c' := by
  cases hs with
  | election i now r hi hrun hnl htm =>
    rw [start_election_eq]
    have hq : (peers (c.nodes i).nodes_count (c.nodes i).id).map
          (fun j => Msg.requestVote (c.nodes i).id j ((c.nodes i).current_term + 1))
        = (peers c.node_count i).map (fun j => Msg.requestVote i j ((c.nodes i).current_term + 1)) := by
      rw [h.wf_id i hi, h.wf_cnt i hi]
    have hw : (peers (c.nodes i).nodes_count (c.nodes i).id).map
          (fun j => Event.message_sent (Msg.requestVote (c.nodes i).id j ((c.nodes i).current_term + 1)))
        = (peers c.node_count i).map
          (fun j => Event.message_sent (Msg.requestVote i j ((c.nodes i).current_term + 1))) := by
      rw [h.wf_id i hi, h.wf_cnt i hi]
    have hv : (some (c.nodes i).id : Option Nat) = some i := by
      rw [h.wf_id i hi]
    rw [hq, hw, hv]
    exact inv_election_step c i now r hi h
  | heartbeat_tick i hi hrun hst =>
    exact inv_heartbeat_step c i hi h
  | deliver m rest now hbuf hdst hcan =>
    exact inv_deliver_step c m rest now hbuf hdst h
  | drop m rest hbuf hcan =>
    exact inv_drop_step c m rest hbuf h
  | fail i hi =>
    exact inv_fail_step c i hi h
  | restore_node i now hi =>
    exact inv_restore_step c i hi now h
  | stop_node i hi =>
    exact inv_stop_step c i hi h
  | create_partition groups =>
    exact inv_partition_fields c true groups h
  | heal_partition =>
    exact inv_partition_fields c false [] h

/-- The freshly constructed cluster satisfies the invariant: the trace and
buffer are empty and every node is a term-0 follower with no vote. -/
theorem inv_init (N : Nat) (r : Nat → Nat) (now : ℚ) : ClusterInv (initCluster N r now) := by
  refine ⟨?_, ?_, ?_, ?_, ?_, ?_, ?_, ?_, ?_, ?_, ?_, ?_, ?_, ?_, ?_⟩
  · intro i hi
    rfl
  · intro i hi
    rfl
  · intro m hm
    simp [initCluster] at hm
  · intro v t cc hb
    rcases hb with hb | ⟨_, hb⟩ <;> simp [initCluster, grantedSent, candAt] at hb
  · intro v t c₁ c₂ h₁ h₂
    rcases h₁ with h₁ | ⟨_, h₁⟩ <;> simp [initCluster, grantedSent, candAt] at h₁
  · intro cc t
    simp [initCluster, candCount]
  · intro cc t
    simp [initCluster, sentReqCount]
  · intro cc v t
    simp [initCluster, sentReqCount, candCount]
  · intro cc v t
    simp [initCluster, netReqCount, deliveredReqCount, sentReqCount]
  · intro v cc t
    simp [initCluster, grantedSentCount, deliveredReqCount]
  · intro v cc t
    simp [initCluster, netGrantedCount, deliveredGrantedCount, grantedSentCount]
  · intro cc hcc hst
    simp [initCluster, initNode] at hst
  · intro cc hcc hst
    simp [initCluster, initNode] at hst
  · intro cc t hm
    simp [initCluster] at hm
  · intro cc hcc hst
    simp [initCluster, initNode] at hst

/-- Every reachable state satisfies the invariant. -/
theorem inv_reachable (N : Nat) (r : Nat → Nat) (now : ℚ) (s : Cluster)
    (hr : Reachable N r now s) : ClusterInv s := by
  unfold Reachable at hr
  induction hr with
  | refl => exact inv_init N r now
  | tail hab hbc ih => exact inv_step _ _ hbc ih

/-- Two published `Leader` transitions in the same term name the same node:
their ballot sets are disjoint subsets of `range node_count`, each of
cardinality strictly above half. -/
theorem leaderEvt_unique (s : Cluster) (h : ClusterInv s) (i j t : Nat)
    (hi : leaderEvt i t ∈ s.trace) (hj : leaderEvt j t ∈ s.trace) : i = j := by
  by_contra hij
  have h1 := h.leaderEvt_bound i t hi
  have h2 := h.leaderEvt_bound j t hj
  have hdisj : Disjoint (ballots s.trace i t s.node_count) (ballots s.trace j t s.node_count) := by
    rw [Finset.disjoint_left]
    intro a ha haj
    unfold ballots at ha haj
    rw [Finset.mem_filter] at ha haj
    exact hij (h.ballot_unique a t i j ha.2 haj.2)
  have hsub : ballots s.trace i t s.node_count ∪ ballots s.trace j t s.node_count
      ⊆ Finset.range s.node_count := by
    intro a ha
    unfold ballots at ha
    rcases Finset.mem_union.mp ha with ha | ha <;> exact (Finset.mem_filter.mp ha).1
  have hcard := Finset.card_le_card hsub
  rw [Finset.card_union_of_disjoint hdisj, Finset.card_range] at hcard
  omega

/-- C1 (election safety): in every reachable state of the cluster step
relation — interleaving `start_election` ticks, deliveries dispatched to
`handle_vote_request` / `handle_vote_response` / `handle_append_entries`,
drops, `simulate_failure`, `restore`, `stop` and partition control across all
nodes — at most one node ever publishes a `Leader` transition for any term
`t` (the trace records the whole history, so this is "at most one leader ever
per term"), and in particular no reachable state has two distinct nodes
simultaneously in state `Leader` at the same `current_term`. -/
theorem election_safety (N : Nat) (r : Nat → Nat) (now₀ : ℚ) (s : Cluster)
    (hr : Reachable N r now₀ s) :
    (∀ i j t, leaderEvt i t ∈ s.trace → leaderEvt j t ∈ s.trace → i = j) ∧
    (∀ i j t, i < s.node_count → j < s.node_count →
      (s.nodes i).state = NodeState.leader → (s.nodes j).state = NodeState.leader →
      (s.nodes i).current_term = t → (s.nodes j).current_term = t → i = j) := by
  have h := inv_reachable N r now₀ s hr
  refine ⟨fun i j t hi hj => leaderEvt_unique s h i j t hi hj, ?_⟩
  intro i j t hi hj hsi hsj hti htj
  exact leaderEvt_unique s h i j t (hti ▸ h.leader_evt i hi hsi) (htj ▸ h.leader_evt j hj hsj)

theorem election_safety_witness :
    (∀ i j t, leaderEvt i t ∈ (initCluster 2 (fun _ => 150) 0).trace →
      leaderEvt j t ∈ (initCluster 2 (fun _ => 150) 0).trace → i = j) ∧
    (∀ i j t, i < (initCluster 2 (fun _ => 150) 0).node_count →
      j < (initCluster 2 (fun _ => 150) 0).node_count →
      ((initCluster 2 (fun _ => 150) 0).nodes i).state = NodeState.leader →
      ((initCluster 2 (fun _ => 150) 0).nodes j).state = NodeState.leader →
      ((initCluster 2 (fun _ => 150) 0).nodes i).current_term = t →
      ((initCluster 2 (fun _ => 150) 0).nodes j).current_term = t → i = j) :=
  election_safety 2 (fun _ => 150) 0 (initCluster 2 (fun _ => 150) 0) Relation.ReflTransGen.refl

/-- `start_election` bumps the term by one. -/
theorem se_term_mono (n : Node) (now : ℚ) (r : Nat) :
    n.current_term ≤ (start_election n now r).1.current_term := by
  rw [start_election_eq]
  show n.current_term ≤ n.current_term + 1
  omega

/-- `handle_vote_response` never lowers the term. -/
theorem hvresp_term_mono (n : Node) (t : Nat) (g : Bool) :
    n.current_term ≤ (handle_vote_response n t g).1.current_term := by
  rcases hvresp_cases n t g with ⟨_, he⟩ | ⟨_, hlt, he⟩ | ⟨_, _, _, _, _, he⟩
    | ⟨_, _, _, _, _, he⟩ | ⟨_, _, _, he⟩
  · rw [he]
  · rw [he]
    exact Nat.le_of_lt hlt
  · rw [he]
  · rw [he]
  · rw [he]

/-- `handle_append_entries` never lowers the term. -/
theorem hae_term_mono (n : Node) (now : ℚ) (t l : Nat) :
    n.current_term ≤ (handle_append_entries n now t l).1.current_term := by
  rcases hae_cases n now t l with ⟨hlt, he⟩ | ⟨_, _, _, he⟩ | ⟨_, _, _, he⟩ | ⟨_, he⟩
  · rw [he]
    exact Nat.le_of_lt hlt
  · rw [he]
  · rw [he]
  · rw [he]

/-- `restore` never lowers the term. -/
theorem restore_term_mono (n : Node) (now : ℚ) :
    n.current_term ≤ (restore n now).1.current_term := by
  by_cases hrun : n.running
  · simp [restore, hrun]
  · simp [restore, hrun]

/-- `receive_message` never lowers the term, whatever the message. -/
theorem receive_term_mono (n : Node) (now : ℚ) (m : Msg) :
    n.current_term ≤ (receive_message n now m).1.current_term := by
  cases m with
  | requestVote s d t => exact hvr_term_mono n now t s
  | voteResponse s d t g => exact hvresp_term_mono n t g
  | appendEntries s d t => exact hae_term_mono n now t s
  | heartbeat s d t => exact le_refl _
  | appendEntriesResponse s d t ok => exact le_refl _

/-- No cluster step lowers any node's term. -/
theorem step_term_mono (c c' : Cluster) (hs : Step c c') (i : Nat) :
    (c.nodes i).current_term ≤ (c'.nodes i).current_term := by
  cases hs with
  | election j now r hj hrun hnl htm =>
    show (c.nodes i).current_term
      ≤ (Function.update c.nodes j (start_election (c.nodes j) now r).1 i).current_term
    rw [Function.update_apply]
    split_ifs with hij
    · rw [hij]
      exact se_term_mono (c.nodes j) now r
    · exact le_refl _
  | heartbeat_tick j hj hrun hst =>
    show (c.nodes i).current_term
      ≤ (Function.update c.nodes j (send_heartbeats (c.nodes j)).1 i).current_term
    rw [Function.update_apply]
    split_ifs with hij
    · rw [hij]
      exact le_refl _
    · exact le_refl _
  | deliver m rest now hbuf hdst hcan =>
    show (c.nodes i).current_term
      ≤ (Function.update c.nodes m.dst (receive_message (c.nodes m.dst) now m).1 i).current_term
    rw [Function.update_apply]
    split_ifs with hij
    · rw [hij]
      exact receive_term_mono (c.nodes m.dst) now m
    · exact le_refl _
  | drop m rest hbuf hcan =>
    exact le_refl _
  | fail j hj =>
    show (c.nodes i).current_term
      ≤ (Function.update c.nodes j (simulate_failure (c.nodes j)).1 i).current_term
    rw [Function.update_apply]
    split_ifs with hij
    · rw [hij]
      exact le_refl _
    · exact le_refl _
  | restore_node j now hj =>
    show (c.nodes i).current_term
      ≤ (Function.update c.nodes j (restore (c.nodes j) now).1 i).current_term
    rw [Function.update_apply]
    split_ifs with hij
    · rw [hij]
      exact restore_term_mono (c.nodes j) now
    · exact le_refl _
  | stop_node j hj =>
    show (c.nodes i).current_term
      ≤ (Function.update c.nodes j (stopNode (c.nodes j)) i).current_term
    rw [Function.update_apply]
    split_ifs with hij
    · rw [hij]
      exact le_refl _
    · exact le_refl _
  | create_partition groups =>
    exact le_refl _
  | heal_partition =>
    exact le_refl _

/-- Along any run of steps, each node's term sequence is non-decreasing. -/
theorem run_steps_term_mono (c c' : Cluster) (hr : Relation.ReflTransGen Step c c') (i : Nat) :
    (c.nodes i).current_term ≤ (c'.nodes i).current_term := by
  induction hr with
  | refl => exact le_refl _
  | tail hab hbc ih => exact le_trans ih (step_term_mono _ _ hbc i)

/-- C2 (term monotonicity): every single invocation of an operation that can
touch the term — `start_election`, `handle_vote_request`,
`handle_vote_response`, `handle_append_entries`, `restore`, `stop`,
`simulate_failure` — leaves the node's `current_term` greater than or equal
to its value before the call; consequently no cluster step lowers any node's
term, and along any run each node's `current_term` sequence is
non-decreasing. -/
theorem term_monotonicity :
    (∀ (n : Node) (now : ℚ) (r : Nat), n.current_term ≤ (start_election n now r).1.current_term) ∧
    (∀ (n : Node) (now : ℚ) (t cand : Nat),
      n.current_term ≤ (handle_vote_request n now t cand).1.current_term) ∧
    (∀ (n : Node) (t : Nat) (g : Bool),
      n.current_term ≤ (handle_vote_response n t g).1.current_term) ∧
    (∀ (n : Node) (now : ℚ) (t l : Nat),
      n.current_term ≤ (handle_append_entries n now t l).1.current_term) ∧
    (∀ (n : Node) (now : ℚ), n.current_term ≤ (restore n now).1.current_term) ∧
    (∀ n : Node, n.current_term ≤ (stopNode n).current_term) ∧
    (∀ n : Node, n.current_term ≤ (simulate_failure n).1.current_term) ∧
    (∀ c c' : Cluster, Step c c' →
      ∀ i, (c.nodes i).current_term ≤ (c'.nodes i).current_term) ∧
    (∀ c c' : Cluster, Relation.ReflTransGen Step c c' →
      ∀ i, (c.nodes i).current_term ≤ (c'.nodes i).current_term) :=
  ⟨se_term_mono, hvr_term_mono, hvresp_term_mono, hae_term_mono, restore_term_mono,
   fun _ => le_refl _, fun _ => le_refl _,
   fun _ _ hs i => step_term_mono _ _ hs i,
   fun _ _ hr i => run_steps_term_mono _ _ hr i⟩

theorem term_monotonicity_witness :
    ((initCluster 3 (fun _ => 150) 0).nodes 0).current_term ≤
      (({ initCluster 3 (fun _ => 150) 0 with
            partitioned := true
            partition_groups := [[0, 1]] }).nodes 0).current_term :=
  term_monotonicity.2.2.2.2.2.2.2.1 (initCluster 3 (fun _ => 150) 0) _
    (Step.create_partition (initCluster 3 (fun _ => 150) 0) [[0, 1]]) 0
